import Mathlib

/-!
# TangentBug: a shallow embedding of the navigation core of `main.cpp`

The C++ program works on `float`.  The embedding is generic over a linearly
ordered field `K` with a floor function (so the same definitions run on `ℚ`
and are reasoned about on `ℝ`), i.e. it is the exact-arithmetic reading of the
code: rounding, overflow, infinities and NaN are not modelled.  The three libm
functions the code calls (`sqrt`, `cos`, `sin`) are parameters.  Where rounding
decides a property, the `float` reading is given next to the exact one
(section `Binary32`: the point-in-triangle test with every operation rounded
to binary32).

Local variables that the C++ code leaves uninitialised (`lastHitPoint` in
`circleCast`, `pointToFollow` and `lastDirection` in `main`) are explicit
inputs of the model: their initial value is arbitrary.
-/

namespace TangentBug

/-! ## Planar vector kernel (`struct vec2`, lines 104-174) -/

/-- The C++ `struct vec2 { float x, y; }`. -/
@[ext]
structure vec2 (K : Type) where
  x : K
  y : K
deriving DecidableEq

section Kernel

variable {K : Type} [LinearOrderedField K]

/-- The C++ `vec2 operator +(vec2 v)`. -/
def vec2.add (u v : vec2 K) : vec2 K := ⟨u.x + v.x, u.y + v.y⟩

/-- The C++ `vec2 operator -(vec2 v)`. -/
def vec2.sub (u v : vec2 K) : vec2 K := ⟨u.x - v.x, u.y - v.y⟩

/-- The C++ `vec2 operator *(float c)`. -/
def vec2.scale (u : vec2 K) (c : K) : vec2 K := ⟨u.x * c, u.y * c⟩

/-- The C++ `float norm()`: `sqrt(x * x + y * y)`. -/
def vec2.norm (sqrt : K → K) (v : vec2 K) : K := sqrt (v.x * v.x + v.y * v.y)

/-- The C++ `normalize`: both components divided by the norm. -/
def normalize (sqrt : K → K) (v : vec2 K) : vec2 K :=
  let norm := v.norm sqrt
  ⟨v.x / norm, v.y / norm⟩

/-- The C++ `crossProduct`: `p1.x * p2.y - p1.y * p2.x`. -/
def crossProduct (p1 p2 : vec2 K) : K := p1.x * p2.y - p1.y * p2.x

/-- The C++ `dot`: `p1.x * p2.x + p1.y * p2.y`. -/
def dot (p1 p2 : vec2 K) : K := p1.x * p2.x + p1.y * p2.y

/-! ## Obstacle model (`class obstacle`, `triangle`, `circle`, lines 212-297) -/

/-- The class hierarchy `obstacle` / `triangle` / `circle` as a tagged variant.
`base` is the (instantiable) base class, whose `insideObstacle` returns false. -/
inductive obstacle (K : Type) where
  | base : obstacle K
  | triangle (p1 p2 p3 : vec2 K) : obstacle K
  | circle (center : vec2 K) (radius : K) : obstacle K

/-- The `edges` array built by the `triangle` constructor:
`vertices[1] - vertices[0]`, `vertices[2] - vertices[1]`, `vertices[0] - vertices[2]`. -/
def triangle.edges (p1 p2 p3 : vec2 K) : vec2 K × vec2 K × vec2 K :=
  (p2.sub p1, p3.sub p2, p1.sub p3)

/-- The C++ `triangle::insideObstacle` (lines 241-248), in exact arithmetic; its
`float` reading is `binary32.triangle.insideObstacle`. -/
def triangle.insideObstacle (p1 p2 p3 point : vec2 K) : Bool :=
  let edges := triangle.edges p1 p2 p3
  let ABxAP := crossProduct edges.1 (point.sub p1)
  let BCxBP := crossProduct edges.2.1 (point.sub p2)
  let CAxCP := crossProduct edges.2.2 (point.sub p3)
  (decide (ABxAP < 0) && decide (BCxBP < 0) && decide (CAxCP < 0)) ||
    (decide (ABxAP > 0) && decide (BCxBP > 0) && decide (CAxCP > 0))

/-- The C++ `circle::insideObstacle` (lines 280-283): `(point - center).norm() < radius`. -/
def circle.insideObstacle (sqrt : K → K) (center : vec2 K) (radius : K) (point : vec2 K) : Bool :=
  decide ((point.sub center).norm sqrt < radius)

/-- Virtual dispatch of `insideObstacle`. -/
def obstacle.insideObstacle (sqrt : K → K) : obstacle K → vec2 K → Bool
  | .base, _ => false
  | .triangle p1 p2 p3, point => triangle.insideObstacle p1 p2 p3 point
  | .circle center radius, point => circle.insideObstacle sqrt center radius point

/-- The inner loop of `raycast` (lines 350-354): is the point inside some obstacle of the list. -/
def insideAny (sqrt : K → K) (obstacleList : List (obstacle K)) (point : vec2 K) : Bool :=
  obstacleList.any (fun obs => obs.insideObstacle sqrt point)

end Kernel

/-! ## Sensing primitives (`raycast`, `circleCast`, lines 343-379) -/

section Sensing

variable {K : Type} [LinearOrderedField K]

/-- The `for (int i = 0; i < r / raySpeed; i++)` loop of `raycast`, entered at
counter `i` with the current `hitPoint`; `fuel` bounds the number of iterations
still allowed.  The result is the returned `bool` and the final `hitPoint`.
This is the exact-arithmetic reading: the quotient `r / raySpeed` and the sums
`hitPoint += step` are not rounded as `float` does, and the counter is a
natural number where the source has an `int`. -/
def raycastLoop [FloorRing K] (sqrt : K → K) (raySpeed r : K) (step : vec2 K)
    (obstacleList : List (obstacle K)) : Nat → Nat → vec2 K → Bool × vec2 K
  | 0, _, hitPoint => (false, hitPoint)
  | fuel + 1, i, hitPoint =>
    if (i : K) < r / raySpeed then
      let hitPoint := hitPoint.add step
      if insideAny sqrt obstacleList hitPoint then (true, hitPoint)
      else raycastLoop sqrt raySpeed r step obstacleList fuel (i + 1) hitPoint
    else (false, hitPoint)

/-- The C++ `raycast` (lines 343-357).  `raySpeed` is the global ray step.  The
fuel `⌈r / raySpeed⌉₊` is the number of naturals `i` with `i < r / raySpeed`,
so the loop always ends by its own test (see `raycastLoop_fuel`). -/
def raycast [FloorRing K] (sqrt : K → K) (raySpeed : K) (origin direction : vec2 K) (r : K)
    (obstacleList : List (obstacle K)) : Bool × vec2 K :=
  raycastLoop sqrt raySpeed r (direction.scale raySpeed) obstacleList ⌈r / raySpeed⌉₊ 0 origin

/-- The constant `M_PI` of line 96. -/
def M_PI : K := 314159265358979323846 / 100000000000000000000

/-- The constant `M_PI2 = 2 * M_PI` of line 97. -/
def M_PI2 : K := 2 * M_PI

/-- The `for (float angle = angleStep; angle < M_PI2; angle += angleStep)` loop
of `circleCast`, entered at `angle` with the current `hittingObstacle`,
`lastHitPoint` and output vector `hitPoints`.  (`hitPoint` is not threaded:
every `raycast` call overwrites it.) -/
def circleCastLoop [FloorRing K] (sqrt cos sin : K → K) (raySpeed angleStep : K) (origin : vec2 K) (r : K)
    (obstacleList : List (obstacle K)) :
    Nat → K → Bool → vec2 K → List (vec2 K) → List (vec2 K)
  | 0, _, _, _, hitPoints => hitPoints
  | fuel + 1, angle, hittingObstacle, lastHitPoint, hitPoints =>
    if angle < M_PI2 then
      let rc := raycast sqrt raySpeed origin ⟨cos angle, sin angle⟩ r obstacleList
      if rc.1 then
        circleCastLoop sqrt cos sin raySpeed angleStep origin r obstacleList fuel
          (angle + angleStep) true rc.2
          (if !hittingObstacle then hitPoints ++ [lastHitPoint] else hitPoints)
      else if hittingObstacle then
        circleCastLoop sqrt cos sin raySpeed angleStep origin r obstacleList fuel
          (angle + angleStep) false lastHitPoint (hitPoints ++ [rc.2])
      else
        circleCastLoop sqrt cos sin raySpeed angleStep origin r obstacleList fuel
          (angle + angleStep) hittingObstacle lastHitPoint hitPoints
    else hitPoints

/-- The C++ `circleCast` (lines 359-379).  `lastHitPoint` is the value the
uninitialised local `vec2 lastHitPoint;` happens to hold; `hitPoints` is the
vector passed by reference.  For `angleStep > 0` the fuel `⌈M_PI2 / angleStep⌉₊`
is at least the number of angles below `M_PI2` (see `circleCast_fuel`). -/
def circleCast [FloorRing K] (sqrt cos sin : K → K) (raySpeed angleStep : K) (origin : vec2 K) (r : K)
    (obstacleList : List (obstacle K)) (lastHitPoint : vec2 K) (hitPoints : List (vec2 K)) :
    List (vec2 K) :=
  let hittingObstacle := (raycast sqrt raySpeed origin ⟨1, 0⟩ r obstacleList).1
  circleCastLoop sqrt cos sin raySpeed angleStep origin r obstacleList
    ⌈(M_PI2 : K) / angleStep⌉₊ angleStep hittingObstacle lastHitPoint hitPoints

end Sensing

/-! ## Navigation state machine (the "Update robot" block of `main`, lines 627-691) -/

section Navigation

variable {K : Type} [LinearOrderedField K]

/-- The globals of lines 331-341 that the update reads but never writes, the
libm functions, and the value held by the uninitialised local of `circleCast`. -/
structure Config (K : Type) where
  sqrt : K → K
  cos : K → K
  sin : K → K
  robotSpeed : K
  robotVisionRadius : K
  obstacleList : List (obstacle K)
  goalCenter : vec2 K
  angleStep : K
  raySpeed : K
  uninitLastHitPoint : vec2 K

/-- The variables the update block reads and writes across iterations of the
main loop (globals `robotCenter`, `movingTowards`, `followingBorder` and the
locals of `main` declared at lines 544-568).  Vertex buffers that only feed the
renderer are left out. -/
structure RobotState (K : Type) where
  robotCenter : vec2 K
  movingTowards : vec2 K
  followingBorder : Bool
  goalDirection : vec2 K
  distToGoal : K
  lastDistToGoal : K
  dreach : K
  dfollowed : K
  lastDirection : vec2 K
  pointToFollow : vec2 K
  followingBoundaryStartingPos : vec2 K
  done : Bool

/-- The three variables the candidate loop (lines 654-668) assigns. -/
structure Selection (K : Type) where
  pointToFollow : vec2 K
  minDist : K
  dreach : K

/-- The test of line 657: the candidate is skipped (`continue`). -/
def skipped (sqrt : K → K) (robotCenter lastDirection : vec2 K) (followingBorder : Bool)
    (point : vec2 K) : Bool :=
  followingBorder && decide (dot (normalize sqrt (point.sub robotCenter)) lastDirection < -(1 / 100))

/-- One iteration of the candidate loop (the body of lines 655-668).
`distToGoal` is the variable of `main` at that moment: the robot's distance to
the goal before the move. -/
def selectStep (sqrt : K → K) (robotCenter goalCenter lastDirection : vec2 K)
    (followingBorder : Bool) (distToGoal : K) (acc : Selection K) (point : vec2 K) :
    Selection K :=
  if skipped sqrt robotCenter lastDirection followingBorder point then acc
  else
    let distToPoint := (point.sub robotCenter).norm sqrt
    let distPointToGoal := (goalCenter.sub point).norm sqrt
    if distPointToGoal + distToPoint < acc.minDist then
      { pointToFollow := point, minDist := distToGoal + distToPoint, dreach := distPointToGoal }
    else acc

/-- The candidate loop of lines 654-668 over the scanned points, started from
the current `pointToFollow` and `dreach` with `minDist = 9999999999`. -/
def selectPoint (sqrt : K → K) (robotCenter goalCenter lastDirection : vec2 K)
    (followingBorder : Bool) (distToGoal : K) (pointToFollow : vec2 K) (dreach : K)
    (pointsToFollow : List (vec2 K)) : Selection K :=
  pointsToFollow.foldl
    (selectStep sqrt robotCenter goalCenter lastDirection followingBorder distToGoal)
    { pointToFollow := pointToFollow, minDist := 9999999999, dreach := dreach }

/-- The branch of lines 629-636: the robot is put on the goal and the run ends. -/
def goalReached (c : Config K) (s : RobotState K) : RobotState K :=
  { s with lastDistToGoal := s.distToGoal, robotCenter := c.goalCenter, done := true }

/-- The branch of lines 641-649: free line of sight, one step along `goalDirection`. -/
def directMove (c : Config K) (s : RobotState K) : RobotState K :=
  { s with
    lastDistToGoal := s.distToGoal
    movingTowards := s.robotCenter.add (s.goalDirection.scale c.robotVisionRadius)
    robotCenter := s.robotCenter.add (s.goalDirection.scale c.robotSpeed) }

/-- The points `circleCast` returns for the scan of line 653. -/
def scan [FloorRing K] (c : Config K) (s : RobotState K) : List (vec2 K) :=
  circleCast c.sqrt c.cos c.sin c.raySpeed c.angleStep s.robotCenter c.robotVisionRadius
    c.obstacleList c.uninitLastHitPoint []

/-- The outcome of the candidate loop of the boundary-scan branch. -/
def chosen [FloorRing K] (c : Config K) (s : RobotState K) : Selection K :=
  selectPoint c.sqrt s.robotCenter c.goalCenter s.lastDirection s.followingBorder s.distToGoal
    s.pointToFollow s.dreach (scan c s)

/-- The branch of lines 650-677: scan, choose the point to follow, one step towards it. -/
def boundaryMove [FloorRing K] (c : Config K) (s : RobotState K) : RobotState K :=
  let sel := chosen c s
  let robotCenter :=
    s.robotCenter.add ((normalize c.sqrt (sel.pointToFollow.sub s.robotCenter)).scale c.robotSpeed)
  { s with
    lastDistToGoal := s.distToGoal
    pointToFollow := sel.pointToFollow
    dreach := sel.dreach
    movingTowards := sel.pointToFollow
    robotCenter := robotCenter
    goalDirection := normalize c.sqrt (c.goalCenter.sub robotCenter) }

/-- The condition of line 640: not following a border and the ray towards the goal is free. -/
def lineOfSightClear [FloorRing K] (c : Config K) (s : RobotState K) : Bool :=
  !s.followingBorder &&
    !(raycast c.sqrt c.raySpeed s.robotCenter s.goalDirection c.robotVisionRadius c.obstacleList).1

/-- Lines 628-678: the move of one iteration. -/
def move [FloorRing K] (c : Config K) (s : RobotState K) : RobotState K :=
  if s.distToGoal ≤ c.robotSpeed then goalReached c s
  else if lineOfSightClear c s then directMove c s
  else boundaryMove c s

/-- Lines 679-680: `distToGoal` and `lastDirection` are recomputed after the move. -/
def remeasure (c : Config K) (s : RobotState K) : RobotState K :=
  { s with
    distToGoal := (c.goalCenter.sub s.robotCenter).norm c.sqrt
    lastDirection := normalize c.sqrt (s.pointToFollow.sub s.robotCenter) }

/-- The test of line 681, on the state after `remeasure`. -/
def startsFollowing (s : RobotState K) : Bool :=
  !s.followingBorder && decide (s.distToGoal > s.lastDistToGoal)

/-- Lines 681-686: the switch to boundary following. -/
def switchToBoundary (c : Config K) (s : RobotState K) : RobotState K :=
  if startsFollowing s then
    { s with
      dfollowed := (c.goalCenter.sub s.pointToFollow).norm c.sqrt
      followingBorder := true
      followingBoundaryStartingPos := s.robotCenter }
  else s

/-- The test of line 688. -/
def leavesBoundary (s : RobotState K) : Bool :=
  s.followingBorder && decide (s.dreach < s.dfollowed)

/-- Lines 688-691: the switch back to direct motion. -/
def switchToDirect (s : RobotState K) : RobotState K :=
  if leavesBoundary s then { s with followingBorder := false } else s

/-- One iteration of the main loop, lines 627-691. -/
def tick [FloorRing K] (c : Config K) (s : RobotState K) : RobotState K :=
  switchToDirect (switchToBoundary c (remeasure c (move c s)))

/-- The values the variables have when the main loop is entered (globals of
lines 331-340, locals of lines 544-568).  `lastDirection`, `pointToFollow` and
`followingBoundaryStartingPos` are declared without initialiser: the values
they happen to hold are arguments. -/
def initialState (sqrt : K → K) (robotCenter goalCenter : vec2 K)
    (lastDirection pointToFollow followingBoundaryStartingPos : vec2 K) : RobotState K :=
  { robotCenter := robotCenter
    movingTowards := robotCenter
    followingBorder := false
    goalDirection := normalize sqrt (goalCenter.sub robotCenter)
    distToGoal := (goalCenter.sub robotCenter).norm sqrt
    lastDistToGoal := 999999999
    dreach := 999999999
    dfollowed := 999999999
    lastDirection := lastDirection
    pointToFollow := pointToFollow
    followingBoundaryStartingPos := followingBoundaryStartingPos
    done := false }

/-- The tunables of lines 331-341 with their values in the source
(`robotSpeed = 0.01`, `robotVisionRadius = 0.1`, `goalCenter = (0, -1)`,
`angleStep = .01`, `raySpeed = robotSpeed / 4`), for a given obstacle list. -/
def sourceConfig (sqrt cos sin : K → K) (obstacleList : List (obstacle K))
    (uninitLastHitPoint : vec2 K) : Config K :=
  { sqrt := sqrt
    cos := cos
    sin := sin
    robotSpeed := 1 / 100
    robotVisionRadius := 1 / 10
    obstacleList := obstacleList
    goalCenter := ⟨0, -1⟩
    angleStep := 1 / 100
    raySpeed := 1 / 100 / 4
    uninitLastHitPoint := uninitLastHitPoint }

/-- The states the main loop can be in: the state on entry and, from a state
that is not `done`, the state after one more iteration. -/
inductive Reachable [FloorRing K] (c : Config K) (s₀ : RobotState K) : RobotState K → Prop where
  | start : Reachable c s₀ s₀
  | step {s : RobotState K} : Reachable c s₀ s → s.done = false → Reachable c s₀ (tick c s)

end Navigation

/-! ## The binary32 reading of the point-in-triangle test

The definitions above compute in exact arithmetic.  The functions below redo
`operator -`, `crossProduct` and `triangle::insideObstacle` with every
operation rounded to IEEE-754 binary32 (round to nearest, ties to even, each
operation rounded on its own, no fused multiply-add), on finite values held as
rationals; overflow, infinities and NaN are not modelled. -/

section Binary32

/-- The position of the leading binary digit of `n`, by halving (`fuel` bounds the halvings). -/
def binary32.ilog2 : Nat → Nat → Nat
  | 0, _ => 0
  | fuel + 1, n => if 2 ≤ n then binary32.ilog2 fuel (n / 2) + 1 else 0

/-- The binary exponent `e` of a positive rational `a`: `2 ^ e ≤ a < 2 ^ (e + 1)`. -/
def binary32.expOf (a : ℚ) : ℤ :=
  let d : ℤ := (binary32.ilog2 a.num.natAbs a.num.natAbs : ℤ) - (binary32.ilog2 a.den a.den : ℤ)
  if (2 : ℚ) ^ d ≤ a then d else d - 1

/-- The integer nearest to a non-negative rational, ties going to the even one. -/
def binary32.roundHalfEven (t : ℚ) : ℤ :=
  let f := ⌊t⌋
  let frac := t - f
  if frac < 1 / 2 then f else if 1 / 2 < frac then f + 1 else if f % 2 = 0 then f else f + 1

/-- The binary32 value nearest to a rational (24-bit significand, spacing never
below `2 ^ (-149)`), ties to even: what a `float` operation stores when its
exact result is `q`. -/
def binary32.round (q : ℚ) : ℚ :=
  if q = 0 then 0 else
    let a := |q|
    let k : ℤ := max (binary32.expOf a - 23) (-149)
    let m := binary32.roundHalfEven (a / 2 ^ k)
    (if q < 0 then -1 else 1) * m * 2 ^ k

/-- The C++ `vec2 operator -(vec2 v)` on `float`. -/
def binary32.sub (u v : vec2 ℚ) : vec2 ℚ :=
  ⟨binary32.round (u.x - v.x), binary32.round (u.y - v.y)⟩

/-- The C++ `crossProduct` on `float`: `p1.x * p2.y - p1.y * p2.x`. -/
def binary32.crossProduct (p1 p2 : vec2 ℚ) : ℚ :=
  binary32.round (binary32.round (p1.x * p2.y) - binary32.round (p1.y * p2.x))

/-- The `edges` array built by the `triangle` constructor, on `float`. -/
def binary32.triangle.edges (p1 p2 p3 : vec2 ℚ) : vec2 ℚ × vec2 ℚ × vec2 ℚ :=
  (binary32.sub p2 p1, binary32.sub p3 p2, binary32.sub p1 p3)

/-- The C++ `triangle::insideObstacle` (lines 241-248) on `float`. -/
def binary32.triangle.insideObstacle (p1 p2 p3 point : vec2 ℚ) : Bool :=
  let edges := binary32.triangle.edges p1 p2 p3
  let ABxAP := binary32.crossProduct edges.1 (binary32.sub point p1)
  let BCxBP := binary32.crossProduct edges.2.1 (binary32.sub point p2)
  let CAxCP := binary32.crossProduct edges.2.2 (binary32.sub point p3)
  (decide (ABxAP < 0) && decide (BCxBP < 0) && decide (CAxCP < 0)) ||
    (decide (ABxAP > 0) && decide (BCxBP > 0) && decide (CAxCP > 0))

end Binary32

/-! ## Notions used to state the properties -/

section Notions

variable {K : Type} [LinearOrderedField K]

/-- The `k`-th sample point of a ray: `origin + k * s * direction`. -/
def sample (origin direction : vec2 K) (s : K) (k : Nat) : vec2 K :=
  ⟨origin.x + k * s * direction.x, origin.y + k * s * direction.y⟩

/-- The heuristic cost of a candidate: `|p - robotCenter| + |goalCenter - p|`. -/
def cost (sqrt : K → K) (robotCenter goalCenter p : vec2 K) : K :=
  (p.sub robotCenter).norm sqrt + (goalCenter.sub p).norm sqrt

/-- The two circles `main` puts in `obstacleList` (lines 441-447). -/
def sourceObstacles : List (obstacle K) :=
  [obstacle.circle ⟨0, 1 / 2⟩ (3 / 10), obstacle.circle ⟨0, -1 / 2⟩ (3 / 10)]

/-- An obstacle list used as test input: four circles of radius `1/8` centred at
`(±1/10, 1 ± 1/10)`.  They do not contain `(0, 1)` but enclose it: every point
at distance `1/10` of `(0, 1)` lies inside one of them. -/
def courtyard : List (obstacle K) :=
  [obstacle.circle ⟨1 / 10, 11 / 10⟩ (1 / 8), obstacle.circle ⟨-1 / 10, 11 / 10⟩ (1 / 8),
    obstacle.circle ⟨-1 / 10, 9 / 10⟩ (1 / 8), obstacle.circle ⟨1 / 10, 9 / 10⟩ (1 / 8)]

/-- A state used as test input: the robot at `(3/4, 0)`, following a border
towards the point `(39/50, 1/25)` chosen earlier, which is `1/20` away. -/
def strandedState : RobotState K :=
  { robotCenter := ⟨3 / 4, 0⟩
    movingTowards := ⟨39 / 50, 1 / 25⟩
    followingBorder := true
    goalDirection := ⟨-3 / 5, -4 / 5⟩
    distToGoal := 5 / 4
    lastDistToGoal := 5 / 4
    dreach := 13 / 10
    dfollowed := 1
    lastDirection := ⟨3 / 5, 4 / 5⟩
    pointToFollow := ⟨39 / 50, 1 / 25⟩
    followingBoundaryStartingPos := ⟨0, 0⟩
    done := false }

/-- The bound that links `dreach` to the point it was computed from:
`|goalCenter - pointToFollow| ≤ dreach`. -/
def dreachBound (c : Config K) (s : RobotState K) : Prop :=
  (c.goalCenter.sub s.pointToFollow).norm c.sqrt ≤ s.dreach

/-- The robot on its straight way down to the goal `(0, -1)`: at `(0, y)`, in
direct mode, heading `(0, -1)`, with `distToGoal = y + 1`, not done. -/
def descending (y : K) (s : RobotState K) : Prop :=
  s.robotCenter = ⟨0, y⟩ ∧ s.goalDirection = ⟨0, -1⟩ ∧ s.followingBorder = false ∧
    s.distToGoal = y + 1 ∧ s.done = false

end Notions

/-! ## Frame facts: what the two mode switches and `remeasure` leave unchanged -/

section Frame

variable {K : Type} [LinearOrderedField K]

@[simp] theorem switchToDirect_robotCenter (s : RobotState K) :
    (switchToDirect s).robotCenter = s.robotCenter := by
  unfold switchToDirect; split <;> rfl

@[simp] theorem switchToDirect_done (s : RobotState K) :
    (switchToDirect s).done = s.done := by
  unfold switchToDirect; split <;> rfl

@[simp] theorem switchToDirect_pointToFollow (s : RobotState K) :
    (switchToDirect s).pointToFollow = s.pointToFollow := by
  unfold switchToDirect; split <;> rfl

@[simp] theorem switchToDirect_dreach (s : RobotState K) :
    (switchToDirect s).dreach = s.dreach := by
  unfold switchToDirect; split <;> rfl

@[simp] theorem switchToBoundary_robotCenter (c : Config K) (s : RobotState K) :
    (switchToBoundary c s).robotCenter = s.robotCenter := by
  unfold switchToBoundary; split <;> rfl

@[simp] theorem switchToBoundary_done (c : Config K) (s : RobotState K) :
    (switchToBoundary c s).done = s.done := by
  unfold switchToBoundary; split <;> rfl

@[simp] theorem switchToBoundary_pointToFollow (c : Config K) (s : RobotState K) :
    (switchToBoundary c s).pointToFollow = s.pointToFollow := by
  unfold switchToBoundary; split <;> rfl

@[simp] theorem switchToBoundary_dreach (c : Config K) (s : RobotState K) :
    (switchToBoundary c s).dreach = s.dreach := by
  unfold switchToBoundary; split <;> rfl

@[simp] theorem remeasure_robotCenter (c : Config K) (s : RobotState K) :
    (remeasure c s).robotCenter = s.robotCenter := rfl

@[simp] theorem remeasure_done (c : Config K) (s : RobotState K) :
    (remeasure c s).done = s.done := rfl

@[simp] theorem remeasure_pointToFollow (c : Config K) (s : RobotState K) :
    (remeasure c s).pointToFollow = s.pointToFollow := rfl

@[simp] theorem remeasure_dreach (c : Config K) (s : RobotState K) :
    (remeasure c s).dreach = s.dreach := rfl

@[simp] theorem switchToDirect_goalDirection (s : RobotState K) :
    (switchToDirect s).goalDirection = s.goalDirection := by
  unfold switchToDirect; split <;> rfl

@[simp] theorem switchToBoundary_goalDirection (c : Config K) (s : RobotState K) :
    (switchToBoundary c s).goalDirection = s.goalDirection := by
  unfold switchToBoundary; split <;> rfl

@[simp] theorem remeasure_goalDirection (c : Config K) (s : RobotState K) :
    (remeasure c s).goalDirection = s.goalDirection := rfl

@[simp] theorem switchToDirect_distToGoal (s : RobotState K) :
    (switchToDirect s).distToGoal = s.distToGoal := by
  unfold switchToDirect; split <;> rfl

@[simp] theorem switchToBoundary_distToGoal (c : Config K) (s : RobotState K) :
    (switchToBoundary c s).distToGoal = s.distToGoal := by
  unfold switchToBoundary; split <;> rfl

end Frame

/-! ## Auxiliary facts about square roots and norms over `ℝ` -/

section RealFacts

theorem sqrt_of_mul_self {a b : ℝ} (hb : 0 ≤ b) (h : a = b * b) : Real.sqrt a = b := by
  rw [h, Real.sqrt_mul_self hb]

end RealFacts

/-! ## The sample points of a ray -/

section Samples

variable {K : Type} [LinearOrderedField K]

theorem sample_zero (origin direction : vec2 K) (s : K) : sample origin direction s 0 = origin := by
  simp [sample]

theorem sample_succ (origin direction : vec2 K) (s : K) (k : Nat) :
    (sample origin direction s k).add (direction.scale s) = sample origin direction s (k + 1) := by
  simp only [sample, vec2.add, vec2.scale, Nat.cast_add, Nat.cast_one]
  congr 1 <;> ring

variable [FloorRing K]

/-- The loop test `i < r / raySpeed` holds exactly for the counters below `⌈r / raySpeed⌉₊`. -/
theorem loop_test_iff (r raySpeed : K) (i : Nat) : (i : K) < r / raySpeed ↔ i < ⌈r / raySpeed⌉₊ :=
  Nat.lt_ceil.symm

/-- Extra fuel does not change the result of the ray loop: it stops by its own test. -/
theorem raycastLoop_fuel (sqrt : K → K) (raySpeed r : K) (step : vec2 K)
    (obstacleList : List (obstacle K)) (fuel i : Nat) (hitPoint : vec2 K)
    (h : ⌈r / raySpeed⌉₊ ≤ i + fuel) :
    raycastLoop sqrt raySpeed r step obstacleList (fuel + 1) i hitPoint =
      raycastLoop sqrt raySpeed r step obstacleList fuel i hitPoint := by
  induction fuel generalizing i hitPoint with
  | zero =>
    have hi : ¬ ((i : K) < r / raySpeed) := by
      rw [loop_test_iff]; omega
    simp [raycastLoop, hi]
  | succ n ih =>
    rw [raycastLoop]
    conv_rhs => rw [raycastLoop]
    by_cases hi : (i : K) < r / raySpeed
    · simp only [hi, if_true]
      by_cases hin : insideAny sqrt obstacleList (hitPoint.add step) = true
      · simp [hin]
      · simp only [hin]
        exact ih (i + 1) (hitPoint.add step) (by omega)
    · simp [hi]

/-- The ray loop entered at sample `i` with no obstacle on the samples `i+1 .. N`
runs to the last sample and reports no hit. -/
theorem raycastLoop_miss (sqrt : K → K) (raySpeed r : K) (origin direction : vec2 K)
    (obstacleList : List (obstacle K)) (fuel i : Nat)
    (hfuel : ⌈r / raySpeed⌉₊ ≤ i + fuel) (hi : i ≤ ⌈r / raySpeed⌉₊)
    (hfree : ∀ k, i < k → k ≤ ⌈r / raySpeed⌉₊ →
      insideAny sqrt obstacleList (sample origin direction raySpeed k) = false) :
    raycastLoop sqrt raySpeed r (direction.scale raySpeed) obstacleList fuel i
        (sample origin direction raySpeed i) =
      (false, sample origin direction raySpeed ⌈r / raySpeed⌉₊) := by
  induction fuel generalizing i with
  | zero =>
    have : i = ⌈r / raySpeed⌉₊ := by omega
    simp [raycastLoop, this]
  | succ n ih =>
    rw [raycastLoop]
    by_cases hlt : i < ⌈r / raySpeed⌉₊
    · have ht : (i : K) < r / raySpeed := (loop_test_iff r raySpeed i).2 hlt
      simp only [ht, if_true, sample_succ]
      rw [hfree (i + 1) (by omega) (by omega)]
      simp only [Bool.false_eq_true, if_false]
      exact ih (i + 1) (by omega) (by omega) (fun k hk hkN => hfree k (by omega) hkN)
    · have ht : ¬ ((i : K) < r / raySpeed) := by
        rw [loop_test_iff]; exact hlt
      have hiN : i = ⌈r / raySpeed⌉₊ := by omega
      simp only [ht, if_false]
      rw [hiN]

/-- The ray loop entered at sample `i` stops at the first later sample inside an obstacle. -/
theorem raycastLoop_hit (sqrt : K → K) (raySpeed r : K) (origin direction : vec2 K)
    (obstacleList : List (obstacle K)) (fuel i k : Nat)
    (hfuel : ⌈r / raySpeed⌉₊ ≤ i + fuel) (hik : i < k) (hk : k ≤ ⌈r / raySpeed⌉₊)
    (hin : insideAny sqrt obstacleList (sample origin direction raySpeed k) = true)
    (hfree : ∀ j, i < j → j < k →
      insideAny sqrt obstacleList (sample origin direction raySpeed j) = false) :
    raycastLoop sqrt raySpeed r (direction.scale raySpeed) obstacleList fuel i
        (sample origin direction raySpeed i) =
      (true, sample origin direction raySpeed k) := by
  induction fuel generalizing i with
  | zero => omega
  | succ n ih =>
    rw [raycastLoop]
    have ht : (i : K) < r / raySpeed := (loop_test_iff r raySpeed i).2 (by omega)
    simp only [ht, if_true, sample_succ]
    by_cases hk1 : k = i + 1
    · subst hk1
      simp [hin]
    · rw [hfree (i + 1) (by omega) (by omega)]
      simp only [Bool.false_eq_true, if_false]
      exact ih (i + 1) (by omega) (by omega) (fun j hj hjk => hfree j (by omega) hjk)

/-- The result of `raycast` when no sample lies inside an obstacle. -/
theorem raycast_of_free (sqrt : K → K) (raySpeed : K) (origin direction : vec2 K) (r : K)
    (obstacleList : List (obstacle K))
    (hfree : ∀ k, 1 ≤ k → k ≤ ⌈r / raySpeed⌉₊ →
      insideAny sqrt obstacleList (sample origin direction raySpeed k) = false) :
    raycast sqrt raySpeed origin direction r obstacleList =
      (false, sample origin direction raySpeed ⌈r / raySpeed⌉₊) := by
  have h := raycastLoop_miss sqrt raySpeed r origin direction obstacleList ⌈r / raySpeed⌉₊ 0
    (by omega) (by omega) (fun k hk hkN => hfree k hk hkN)
  rw [sample_zero] at h
  exact h

/-- The result of `raycast` when sample `k` is the first one inside an obstacle. -/
theorem raycast_of_first_hit (sqrt : K → K) (raySpeed : K) (origin direction : vec2 K) (r : K)
    (obstacleList : List (obstacle K)) (k : Nat) (hk1 : 1 ≤ k) (hk : k ≤ ⌈r / raySpeed⌉₊)
    (hin : insideAny sqrt obstacleList (sample origin direction raySpeed k) = true)
    (hfree : ∀ j, 1 ≤ j → j < k →
      insideAny sqrt obstacleList (sample origin direction raySpeed j) = false) :
    raycast sqrt raySpeed origin direction r obstacleList =
      (true, sample origin direction raySpeed k) := by
  have h := raycastLoop_hit sqrt raySpeed r origin direction obstacleList ⌈r / raySpeed⌉₊ 0 k
    (by omega) (by omega) hk hin (fun j hj hjk => hfree j hj hjk)
  rw [sample_zero] at h
  exact h

/-- Some sample inside an obstacle makes `raycast` report a hit, at that sample or an earlier one. -/
theorem raycast_hit_of_inside (sqrt : K → K) (raySpeed : K) (origin direction : vec2 K) (r : K)
    (obstacleList : List (obstacle K)) (k : Nat) (hk1 : 1 ≤ k) (hk : k ≤ ⌈r / raySpeed⌉₊)
    (hin : insideAny sqrt obstacleList (sample origin direction raySpeed k) = true) :
    ∃ j, 1 ≤ j ∧ j ≤ k ∧
      insideAny sqrt obstacleList (sample origin direction raySpeed j) = true ∧
      raycast sqrt raySpeed origin direction r obstacleList =
        (true, sample origin direction raySpeed j) := by
  classical
  have hex : ∃ j, 1 ≤ j ∧ j ≤ k ∧
      insideAny sqrt obstacleList (sample origin direction raySpeed j) = true :=
    ⟨k, hk1, le_refl k, hin⟩
  refine ⟨Nat.find hex, (Nat.find_spec hex).1, (Nat.find_spec hex).2.1,
    (Nat.find_spec hex).2.2, ?_⟩
  apply raycast_of_first_hit sqrt raySpeed origin direction r obstacleList (Nat.find hex)
    (Nat.find_spec hex).1 (le_trans (Nat.find_spec hex).2.1 hk) (Nat.find_spec hex).2.2
  intro j hj hjk
  have hmin := Nat.find_min hex hjk
  have hjk2 : j ≤ k := le_trans (le_of_lt hjk) (Nat.find_spec hex).2.1
  cases hv : insideAny sqrt obstacleList (sample origin direction raySpeed j) with
  | false => rfl
  | true => exact absurd ⟨hj, hjk2, hv⟩ hmin

/-- Whatever `raycast` reports, the point it leaves in `hitPoint` is one of the samples. -/
theorem raycast_snd_sample (sqrt : K → K) (raySpeed : K) (origin direction : vec2 K) (r : K)
    (obstacleList : List (obstacle K)) :
    ∃ k, k ≤ ⌈r / raySpeed⌉₊ ∧
      (raycast sqrt raySpeed origin direction r obstacleList).2 =
        sample origin direction raySpeed k := by
  classical
  by_cases hex : ∃ k, 1 ≤ k ∧ k ≤ ⌈r / raySpeed⌉₊ ∧
      insideAny sqrt obstacleList (sample origin direction raySpeed k) = true
  · obtain ⟨k, hk1, hk, hin⟩ := hex
    obtain ⟨j, _, hjk, _, hrc⟩ := raycast_hit_of_inside sqrt raySpeed origin direction r
      obstacleList k hk1 hk hin
    exact ⟨j, le_trans hjk hk, by rw [hrc]⟩
  · refine ⟨⌈r / raySpeed⌉₊, le_refl _, ?_⟩
    rw [raycast_of_free]
    intro k hk hkN
    cases hv : insideAny sqrt obstacleList (sample origin direction raySpeed k) with
    | false => rfl
    | true => exact absurd ⟨k, hk, hkN, hv⟩ hex

end Samples

/-! ## A single circle on the ray (over `ℝ`) -/

section CircleOnRay

theorem unit_sq {u : vec2 ℝ} (hu : u.norm Real.sqrt = 1) : u.x * u.x + u.y * u.y = 1 := by
  unfold vec2.norm at hu
  exact (Real.sqrt_eq_one).1 hu

/-- Distance from the origin of the ray to its `k`-th sample, for a unit direction. -/
theorem norm_sample_sub (origin u : vec2 ℝ) (hu : u.norm Real.sqrt = 1) (s : ℝ) (k : Nat) :
    ((sample origin u s k).sub origin).norm Real.sqrt = |(k : ℝ) * s| := by
  have h1 := unit_sq hu
  simp only [sample, vec2.sub, vec2.norm]
  rw [← Real.sqrt_sq_eq_abs]
  congr 1
  linear_combination ((k : ℝ) * s) ^ 2 * h1

/-- Membership of the `k`-th sample in a circle centred on the ray at distance `d`. -/
theorem inside_circle_on_ray (origin u : vec2 ℝ) (hu : u.norm Real.sqrt = 1) (s d ρ : ℝ)
    (k : Nat) :
    insideAny Real.sqrt [obstacle.circle (origin.add (u.scale d)) ρ] (sample origin u s k) =
      decide (|(k : ℝ) * s - d| < ρ) := by
  have h1 := unit_sq hu
  have hn : ((sample origin u s k).sub (origin.add (u.scale d))).norm Real.sqrt =
      |(k : ℝ) * s - d| := by
    simp only [sample, vec2.sub, vec2.add, vec2.scale, vec2.norm]
    rw [← Real.sqrt_sq_eq_abs]
    congr 1
    linear_combination ((k : ℝ) * s - d) ^ 2 * h1
  simp [insideAny, obstacle.insideObstacle, circle.insideObstacle, hn]

end CircleOnRay

/-! ## Point-in-triangle test (lines 241-248) -/

section Triangle

variable {K : Type} [LinearOrderedField K]

/-- The truth value of `triangle::insideObstacle` in terms of the three cross products. -/
theorem triangle_inside_eq_true (A B C P : vec2 K) :
    triangle.insideObstacle A B C P = true ↔
      (crossProduct (B.sub A) (P.sub A) < 0 ∧ crossProduct (C.sub B) (P.sub B) < 0 ∧
        crossProduct (A.sub C) (P.sub C) < 0) ∨
      (0 < crossProduct (B.sub A) (P.sub A) ∧ 0 < crossProduct (C.sub B) (P.sub B) ∧
        0 < crossProduct (A.sub C) (P.sub C)) := by
  simp [triangle.insideObstacle, triangle.edges, and_assoc]

/-- The three cross products add up to the doubled signed area of the triangle. -/
theorem cross_sum (A B C P : vec2 K) :
    crossProduct (B.sub A) (P.sub A) + crossProduct (C.sub B) (P.sub B) +
      crossProduct (A.sub C) (P.sub C) = crossProduct (B.sub A) (C.sub A) := by
  simp only [crossProduct, vec2.sub]
  ring

/-- The strict-interior characterisation for one triangle. -/
theorem triangle_inside_iff_bary (A B C P : vec2 K)
    (hnd : crossProduct (B.sub A) (C.sub A) ≠ 0) :
    triangle.insideObstacle A B C P = true ↔
      ∃ a b c : K, 0 < a ∧ 0 < b ∧ 0 < c ∧ a + b + c = 1 ∧
        P.x = a * A.x + b * B.x + c * C.x ∧ P.y = a * A.y + b * B.y + c * C.y := by
  rw [triangle_inside_eq_true]
  have hsum := cross_sum A B C P
  constructor
  · intro h
    refine ⟨crossProduct (C.sub B) (P.sub B) / crossProduct (B.sub A) (C.sub A),
      crossProduct (A.sub C) (P.sub C) / crossProduct (B.sub A) (C.sub A),
      crossProduct (B.sub A) (P.sub A) / crossProduct (B.sub A) (C.sub A), ?_, ?_, ?_, ?_, ?_, ?_⟩
    · rcases h with ⟨h1, h2, h3⟩ | ⟨h1, h2, h3⟩
      · exact div_pos_of_neg_of_neg h2 (by linarith)
      · exact div_pos h2 (by linarith)
    · rcases h with ⟨h1, h2, h3⟩ | ⟨h1, h2, h3⟩
      · exact div_pos_of_neg_of_neg h3 (by linarith)
      · exact div_pos h3 (by linarith)
    · rcases h with ⟨h1, h2, h3⟩ | ⟨h1, h2, h3⟩
      · exact div_pos_of_neg_of_neg h1 (by linarith)
      · exact div_pos h1 (by linarith)
    · rw [← add_div, ← add_div, div_eq_one_iff_eq hnd]
      linarith
    · field_simp
      simp only [crossProduct, vec2.sub]
      ring
    · field_simp
      simp only [crossProduct, vec2.sub]
      ring
  · rintro ⟨a, b, c, ha, hb, hc, habc, hx, hy⟩
    have hA : a = 1 - b - c := by linarith
    have e1 : crossProduct (B.sub A) (P.sub A) = c * crossProduct (B.sub A) (C.sub A) := by
      simp only [crossProduct, vec2.sub, hx, hy, hA]
      ring
    have e2 : crossProduct (C.sub B) (P.sub B) = a * crossProduct (B.sub A) (C.sub A) := by
      simp only [crossProduct, vec2.sub, hx, hy, hA]
      ring
    have e3 : crossProduct (A.sub C) (P.sub C) = b * crossProduct (B.sub A) (C.sub A) := by
      simp only [crossProduct, vec2.sub, hx, hy, hA]
      ring
    rw [e1, e2, e3]
    rcases lt_or_gt_of_ne hnd with hD | hD
    · left
      exact ⟨mul_neg_of_pos_of_neg hc hD, mul_neg_of_pos_of_neg ha hD,
        mul_neg_of_pos_of_neg hb hD⟩
    · right
      exact ⟨mul_pos hc hD, mul_pos ha hD, mul_pos hb hD⟩

/-- C9 (amended): in exact arithmetic (subtractions and products unrounded), for
a non-degenerate triangle `A B C` (doubled signed area
`crossProduct (B - A) (C - A) ≠ 0`, of either sign, i.e. either winding order)
and every point `P`, `triangle::insideObstacle` is true exactly when `P` is a
combination `a A + b B + c C` with `a, b, c > 0` and `a + b + c = 1`; it is
false whenever `P` is such a combination with a vanishing coefficient (edges
and vertices); and the answer is the same for the vertex order `A C B`. -/
theorem triangle_inside_iff_strictly_inside {K : Type} [LinearOrderedField K]
    (A B C P : vec2 K) (hnd : crossProduct (B.sub A) (C.sub A) ≠ 0) :
    (triangle.insideObstacle A B C P = true ↔
      ∃ a b c : K, 0 < a ∧ 0 < b ∧ 0 < c ∧ a + b + c = 1 ∧
        P.x = a * A.x + b * B.x + c * C.x ∧ P.y = a * A.y + b * B.y + c * C.y) ∧
    (∀ a b c : K, a + b + c = 1 → P.x = a * A.x + b * B.x + c * C.x →
      P.y = a * A.y + b * B.y + c * C.y → (a = 0 ∨ b = 0 ∨ c = 0) →
      triangle.insideObstacle A B C P = false) ∧
    triangle.insideObstacle A B C P = triangle.insideObstacle A C B P := by
  have hnd' : crossProduct (C.sub A) (B.sub A) ≠ 0 := by
    intro h
    apply hnd
    simp only [crossProduct, vec2.sub] at h ⊢
    linarith
  refine ⟨triangle_inside_iff_bary A B C P hnd, ?_, ?_⟩
  · intro a b c habc hx hy h0
    have hA : a = 1 - b - c := by linarith
    have e1 : crossProduct (B.sub A) (P.sub A) = c * crossProduct (B.sub A) (C.sub A) := by
      simp only [crossProduct, vec2.sub, hx, hy, hA]
      ring
    have e2 : crossProduct (C.sub B) (P.sub B) = a * crossProduct (B.sub A) (C.sub A) := by
      simp only [crossProduct, vec2.sub, hx, hy, hA]
      ring
    have e3 : crossProduct (A.sub C) (P.sub C) = b * crossProduct (B.sub A) (C.sub A) := by
      simp only [crossProduct, vec2.sub, hx, hy, hA]
      ring
    cases hv : triangle.insideObstacle A B C P with
    | false => rfl
    | true =>
      exfalso
      rw [triangle_inside_eq_true, e1, e2, e3] at hv
      rcases h0 with h | h | h <;> subst h <;> simp at hv
  · rw [Bool.eq_iff_iff, triangle_inside_iff_bary A B C P hnd,
      triangle_inside_iff_bary A C B P hnd']
    constructor
    · rintro ⟨a, b, c, ha, hb, hc, habc, hx, hy⟩
      exact ⟨a, c, b, ha, hc, hb, by linarith, by linarith, by linarith⟩
    · rintro ⟨a, b, c, ha, hb, hc, habc, hx, hy⟩
      exact ⟨a, c, b, ha, hc, hb, by linarith, by linarith, by linarith⟩

/-- Witness of C9 (amended): the triangle `(0,0) (4,0) (0,4)` and the point `(1,1)`, over `ℚ`. -/
theorem triangle_inside_iff_strictly_inside_witness :
    triangle.insideObstacle (⟨0, 0⟩ : vec2 ℚ) ⟨4, 0⟩ ⟨0, 4⟩ ⟨1, 1⟩ =
      triangle.insideObstacle (⟨0, 0⟩ : vec2 ℚ) ⟨0, 4⟩ ⟨4, 0⟩ ⟨1, 1⟩ :=
  (triangle_inside_iff_strictly_inside (⟨0, 0⟩ : vec2 ℚ) ⟨4, 0⟩ ⟨0, 4⟩ ⟨1, 1⟩
    (by norm_num [crossProduct, vec2.sub])).2.2

/-- The `float` values of the literals `0.1` and `0.9`. -/
theorem binary32_literals :
    binary32.round (1 / 10) = 13421773 / 134217728 ∧
    binary32.round (9 / 10) = 7549747 / 8388608 := by
  decide!

/-- Counterexample to C9 as stated, on `float`: the triangle `(0,0) (1,0) (0,1)`
and the point `P = (0.1f, 0.9f)`.  The triangle is not degenerate and `P` is the
combination `a A + b B + c C` with `a = 1 - 0.1f - 0.9f > 0`, `b = 0.1f`,
`c = 0.9f`, so it lies strictly inside; but `0.1f - 1` rounds to `-0.9f`, the
cross product of the edge `B C` is `-0.9f + 0.9f = 0`, and the test answers
false.  For the vertex order `A C B` the same point gets the answer true. -/
theorem triangle_inside_binary32_counterexample :
    crossProduct ((⟨1, 0⟩ : vec2 ℚ).sub ⟨0, 0⟩) ((⟨0, 1⟩ : vec2 ℚ).sub ⟨0, 0⟩) ≠ 0 ∧
    (∃ a b c : ℚ, 0 < a ∧ 0 < b ∧ 0 < c ∧ a + b + c = 1 ∧
      binary32.round (1 / 10) = a * 0 + b * 1 + c * 0 ∧
      binary32.round (9 / 10) = a * 0 + b * 0 + c * 1) ∧
    binary32.triangle.insideObstacle ⟨0, 0⟩ ⟨1, 0⟩ ⟨0, 1⟩
      ⟨binary32.round (1 / 10), binary32.round (9 / 10)⟩ = false ∧
    binary32.triangle.insideObstacle ⟨0, 0⟩ ⟨0, 1⟩ ⟨1, 0⟩
      ⟨binary32.round (1 / 10), binary32.round (9 / 10)⟩ = true := by
  refine ⟨by norm_num [crossProduct, vec2.sub], ?_, by decide!, by decide!⟩
  obtain ⟨h1, h9⟩ := binary32_literals
  refine ⟨1 - 13421773 / 134217728 - 7549747 / 8388608, 13421773 / 134217728,
    7549747 / 8388608, by norm_num, by norm_num, by norm_num, by norm_num, ?_, ?_⟩
  · rw [h1]; norm_num
  · rw [h9]; norm_num

end Triangle

/-! ## Ray casting: which samples are tested -/

section RaycastClaims

/-- C3 (amended): in exact arithmetic (quotient and sample sums unrounded, counter
not overflowing), for a ray step `raySpeed > 0`, `raycast` tests the samples
`origin + k * raySpeed * direction` for `k = 1 .. N` in increasing `k`, where
`N = ⌈r / raySpeed⌉₊` is the number of counters `i ≥ 0` with `i * raySpeed < r`
(the ceiling of `r / raySpeed`, not its floor).  It reports no hit exactly when
none of these `N` samples lies inside an obstacle, and then `hitPoint` is the
last sample; when it reports a hit, `hitPoint` is the first of these samples
that lies inside an obstacle. -/
theorem raycast_tests_ceil_samples {K : Type} [LinearOrderedField K] [FloorRing K]
    (sqrt : K → K) (raySpeed : K) (origin direction : vec2 K) (r : K)
    (obstacleList : List (obstacle K)) (hs : 0 < raySpeed) :
    (∀ i : Nat, (i : K) * raySpeed < r ↔ i < ⌈r / raySpeed⌉₊) ∧
    ((raycast sqrt raySpeed origin direction r obstacleList).1 = false ↔
      ∀ k, 1 ≤ k → k ≤ ⌈r / raySpeed⌉₊ →
        insideAny sqrt obstacleList (sample origin direction raySpeed k) = false) ∧
    ((raycast sqrt raySpeed origin direction r obstacleList).1 = false →
      (raycast sqrt raySpeed origin direction r obstacleList).2 =
        sample origin direction raySpeed ⌈r / raySpeed⌉₊) ∧
    ((raycast sqrt raySpeed origin direction r obstacleList).1 = true →
      ∃ k, 1 ≤ k ∧ k ≤ ⌈r / raySpeed⌉₊ ∧
        (raycast sqrt raySpeed origin direction r obstacleList).2 =
          sample origin direction raySpeed k ∧
        insideAny sqrt obstacleList (sample origin direction raySpeed k) = true ∧
        ∀ j, 1 ≤ j → j < k →
          insideAny sqrt obstacleList (sample origin direction raySpeed j) = false) := by
  classical
  have hcount : ∀ i : Nat, (i : K) * raySpeed < r ↔ i < ⌈r / raySpeed⌉₊ := by
    intro i
    rw [← loop_test_iff, lt_div_iff₀ hs]
  by_cases hex : ∃ k, 1 ≤ k ∧ k ≤ ⌈r / raySpeed⌉₊ ∧
      insideAny sqrt obstacleList (sample origin direction raySpeed k) = true
  · have hfirst : ∀ j, 1 ≤ j → j < Nat.find hex →
        insideAny sqrt obstacleList (sample origin direction raySpeed j) = false := by
      intro j hj hjk
      have hmin := Nat.find_min hex hjk
      have hjN : j ≤ ⌈r / raySpeed⌉₊ := le_trans (le_of_lt hjk) (Nat.find_spec hex).2.1
      cases hv : insideAny sqrt obstacleList (sample origin direction raySpeed j) with
      | false => rfl
      | true => exact absurd ⟨hj, hjN, hv⟩ hmin
    have hrc := raycast_of_first_hit sqrt raySpeed origin direction r obstacleList
      (Nat.find hex) (Nat.find_spec hex).1 (Nat.find_spec hex).2.1 (Nat.find_spec hex).2.2 hfirst
    refine ⟨hcount, ?_, ?_, ?_⟩
    · rw [hrc]
      constructor
      · intro h; exact absurd h (by simp)
      · intro h
        have h1 := h (Nat.find hex) (Nat.find_spec hex).1 (Nat.find_spec hex).2.1
        rw [(Nat.find_spec hex).2.2] at h1
        exact absurd h1 (by simp)
    · rw [hrc]
      intro h; exact absurd h (by simp)
    · intro _
      exact ⟨Nat.find hex, (Nat.find_spec hex).1, (Nat.find_spec hex).2.1, by rw [hrc],
        (Nat.find_spec hex).2.2, hfirst⟩
  · have hfree : ∀ k, 1 ≤ k → k ≤ ⌈r / raySpeed⌉₊ →
        insideAny sqrt obstacleList (sample origin direction raySpeed k) = false := by
      intro k hk hkN
      cases hv : insideAny sqrt obstacleList (sample origin direction raySpeed k) with
      | false => rfl
      | true => exact absurd ⟨k, hk, hkN, hv⟩ hex
    have hrc := raycast_of_free sqrt raySpeed origin direction r obstacleList hfree
    refine ⟨hcount, ?_, ?_, ?_⟩
    · rw [hrc]
      exact ⟨fun _ => hfree, fun _ => rfl⟩
    · rw [hrc]
      intro _; rfl
    · rw [hrc]
      intro h; exact absurd h (by simp)

/-- Witness of C3 (amended): the statement at step 1, radius 3/2 and one circle on the ray. -/
theorem raycast_tests_ceil_samples_witness :
    (0 : ℝ) < 1 ∧
    ((raycast Real.sqrt 1 ⟨0, 0⟩ ⟨1, 0⟩ (3 / 2) [obstacle.circle ⟨2, 0⟩ (1 / 2)]).1 = false ↔
      ∀ k, 1 ≤ k → k ≤ ⌈(3 / 2 : ℝ) / 1⌉₊ →
        insideAny Real.sqrt [obstacle.circle ⟨2, 0⟩ (1 / 2)] (sample ⟨0, 0⟩ ⟨1, 0⟩ 1 k) = false) :=
  ⟨by norm_num,
    (raycast_tests_ceil_samples Real.sqrt 1 ⟨0, 0⟩ ⟨1, 0⟩ (3 / 2)
      [obstacle.circle ⟨2, 0⟩ (1 / 2)] (by norm_num)).2.1⟩

/-- Counterexample to C3 as stated: with radius 3/2 and step 1 there is
`⌊r / s⌋ = 1` sample in the claimed range and it lies outside the circle, yet
`raycast` reports a hit, at the second sample `(2, 0)`. -/
theorem raycast_floor_samples_counterexample :
    ⌊(3 / 2 : ℝ) / 1⌋₊ = 1 ∧
    (∀ k, 1 ≤ k → k ≤ ⌊(3 / 2 : ℝ) / 1⌋₊ →
      insideAny Real.sqrt [obstacle.circle ⟨2, 0⟩ (1 / 2)] (sample ⟨0, 0⟩ ⟨1, 0⟩ 1 k) = false) ∧
    raycast Real.sqrt 1 ⟨0, 0⟩ ⟨1, 0⟩ (3 / 2) [obstacle.circle ⟨2, 0⟩ (1 / 2)] =
      (true, ⟨2, 0⟩) := by
  have hfloor : ⌊(3 / 2 : ℝ) / 1⌋₊ = 1 := by
    rw [Nat.floor_eq_iff (by norm_num)]
    norm_num
  have hceil : ⌈(3 / 2 : ℝ) / 1⌉₊ = 2 := by
    rw [Nat.ceil_eq_iff (by norm_num)]
    norm_num
  have hu : (⟨1, 0⟩ : vec2 ℝ).norm Real.sqrt = 1 := by simp [vec2.norm]
  have hc : (⟨2, 0⟩ : vec2 ℝ) = (⟨0, 0⟩ : vec2 ℝ).add ((⟨1, 0⟩ : vec2 ℝ).scale 2) := by
    simp [vec2.add, vec2.scale]
  have h1 : insideAny Real.sqrt [obstacle.circle ⟨2, 0⟩ (1 / 2)]
      (sample ⟨0, 0⟩ ⟨1, 0⟩ 1 1) = false := by
    rw [hc, inside_circle_on_ray _ _ hu]
    norm_num
  have h2 : insideAny Real.sqrt [obstacle.circle ⟨2, 0⟩ (1 / 2)]
      (sample ⟨0, 0⟩ ⟨1, 0⟩ 1 2) = true := by
    rw [hc, inside_circle_on_ray _ _ hu]
    norm_num
  refine ⟨hfloor, ?_, ?_⟩
  · intro k hk hk1
    rw [hfloor] at hk1
    have : k = 1 := by omega
    subst this
    exact h1
  · have h := raycast_of_first_hit Real.sqrt 1 ⟨0, 0⟩ ⟨1, 0⟩ (3 / 2)
      [obstacle.circle ⟨2, 0⟩ (1 / 2)] 2 (by omega) (by rw [hceil]) h2
      (fun j hj hj2 => by
        have : j = 1 := by omega
        subst this
        exact h1)
    rw [h]
    simp [sample]

/-- Rounding changes the trip count of the ray loop: with the tunables of the
source as `float` values (`r = 0.1f`, `raySpeed = 0.01f / 4`) the `float`
quotient `r / raySpeed` of the loop test is exactly 40, so the loop of the
source runs 40 times, while the exact quotient of the same two values is above
40 and has ceiling 41. -/
theorem binary32_raycast_quotient :
    binary32.round (binary32.round (1 / 10) / binary32.round (binary32.round (1 / 100) / 4)) =
      40 ∧
    ⌈binary32.round (1 / 10) / binary32.round (binary32.round (1 / 100) / 4)⌉₊ = 41 := by
  decide!

/-- C4 (amended): in exact real arithmetic, for a single circle of radius `ρ`
centred at distance `d` from the origin along the unit cast direction,
`raycast` reports no hit whenever its
last sample, at distance `⌈maxRadius / raySpeed⌉₊ * raySpeed` from the origin,
is not beyond `d - ρ`; this covers every `maxRadius < d - ρ` that is a whole multiple
of the ray step. -/
theorem raycast_circle_no_hit (origin u : vec2 ℝ) (raySpeed maxRadius d ρ : ℝ)
    (hs : 0 < raySpeed) (hu : u.norm Real.sqrt = 1)
    (hlast : (⌈maxRadius / raySpeed⌉₊ : ℝ) * raySpeed ≤ d - ρ) :
    (raycast Real.sqrt raySpeed origin u maxRadius
      [obstacle.circle (origin.add (u.scale d)) ρ]).1 = false := by
  rw [raycast_of_free]
  intro k _ hk
  rw [inside_circle_on_ray origin u hu]
  have hkN : (k : ℝ) ≤ (⌈maxRadius / raySpeed⌉₊ : ℝ) := by exact_mod_cast hk
  have hks : (k : ℝ) * raySpeed ≤ d - ρ :=
    le_trans (mul_le_mul_of_nonneg_right hkN (le_of_lt hs)) hlast
  have habs : ¬ (|(k : ℝ) * raySpeed - d| < ρ) := by
    intro h
    have := (abs_lt.1 h).1
    linarith
  simp [habs]

/-- Witness of C4 (amended): step 1, maximal radius 2, circle of radius 1 at distance 3. -/
theorem raycast_circle_no_hit_witness :
    (raycast Real.sqrt 1 ⟨0, 0⟩ ⟨1, 0⟩ 2
      [obstacle.circle ((⟨0, 0⟩ : vec2 ℝ).add ((⟨1, 0⟩ : vec2 ℝ).scale 3)) 1]).1 = false :=
  raycast_circle_no_hit ⟨0, 0⟩ ⟨1, 0⟩ 1 2 3 1 (by norm_num) (by simp [vec2.norm])
    (by
      have hceil : ⌈(2 : ℝ) / 1⌉₊ = 2 := by
        rw [Nat.ceil_eq_iff (by norm_num)]
        norm_num
      rw [hceil]
      norm_num)

/-- Counterexample to C4 as stated: circle of radius 6/5 centred at distance 4 on
the ray, step 1 and maximal radius 5/2 < 4 - 6/5; the third sample, at distance
3 > 5/2, lies inside the circle and `raycast` reports a hit there. -/
theorem raycast_circle_hit_beyond_radius :
    (5 / 2 : ℝ) < 4 - 6 / 5 ∧ (6 / 5 : ℝ) < 4 ∧
    (⟨1, 0⟩ : vec2 ℝ).norm Real.sqrt = 1 ∧
    raycast Real.sqrt 1 ⟨0, 0⟩ ⟨1, 0⟩ (5 / 2)
      [obstacle.circle ((⟨0, 0⟩ : vec2 ℝ).add ((⟨1, 0⟩ : vec2 ℝ).scale 4)) (6 / 5)] =
      (true, ⟨3, 0⟩) := by
  have hu : (⟨1, 0⟩ : vec2 ℝ).norm Real.sqrt = 1 := by simp [vec2.norm]
  have hceil : ⌈(5 / 2 : ℝ) / 1⌉₊ = 3 := by
    rw [Nat.ceil_eq_iff (by norm_num)]
    norm_num
  refine ⟨by norm_num, by norm_num, hu, ?_⟩
  have h := raycast_of_first_hit Real.sqrt 1 ⟨0, 0⟩ ⟨1, 0⟩ (5 / 2)
    [obstacle.circle ((⟨0, 0⟩ : vec2 ℝ).add ((⟨1, 0⟩ : vec2 ℝ).scale 4)) (6 / 5)] 3
    (by omega) (by rw [hceil])
    (by rw [inside_circle_on_ray _ _ hu]; norm_num [abs_lt])
    (fun j hj hj3 => by
      rw [inside_circle_on_ray _ _ hu]
      have hj' : j = 1 ∨ j = 2 := by omega
      rcases hj' with rfl | rfl <;> norm_num [abs_lt, lt_abs])
  rw [h]
  simp [sample]

/-- C5 (amended): in exact real arithmetic, for a single circle of radius `ρ`
centred at distance `d > ρ` from the origin along the unit cast direction, a
ray step `0 < raySpeed < 2 * ρ`
and every `maxRadius > d - ρ`, `raycast` reports a hit, and the distance from
the origin to the reported hit point lies in `(d - ρ, d - ρ + raySpeed]`. -/
theorem raycast_circle_hit_within_step (origin u : vec2 ℝ) (raySpeed maxRadius d ρ : ℝ)
    (hs : 0 < raySpeed) (hsρ : raySpeed < 2 * ρ) (hu : u.norm Real.sqrt = 1)
    (hd : ρ < d) (hR : d - ρ < maxRadius) :
    (raycast Real.sqrt raySpeed origin u maxRadius
      [obstacle.circle (origin.add (u.scale d)) ρ]).1 = true ∧
    d - ρ < ((raycast Real.sqrt raySpeed origin u maxRadius
      [obstacle.circle (origin.add (u.scale d)) ρ]).2.sub origin).norm Real.sqrt ∧
    ((raycast Real.sqrt raySpeed origin u maxRadius
      [obstacle.circle (origin.add (u.scale d)) ρ]).2.sub origin).norm Real.sqrt ≤
      d - ρ + raySpeed := by
  have hq : 0 ≤ (d - ρ) / raySpeed := div_nonneg (by linarith) (le_of_lt hs)
  have hfl : ((⌊(d - ρ) / raySpeed⌋₊ : ℕ) : ℝ) * raySpeed ≤ d - ρ := by
    have := Nat.floor_le hq
    rwa [le_div_iff₀ hs] at this
  have hfl2 : d - ρ < ((⌊(d - ρ) / raySpeed⌋₊ : ℕ) + 1 : ℝ) * raySpeed := by
    have := Nat.lt_floor_add_one ((d - ρ) / raySpeed)
    rwa [div_lt_iff₀ hs] at this
  have hk0N : ⌊(d - ρ) / raySpeed⌋₊ + 1 ≤ ⌈maxRadius / raySpeed⌉₊ := by
    have : ⌊(d - ρ) / raySpeed⌋₊ < ⌈maxRadius / raySpeed⌉₊ := by
      rw [Nat.lt_ceil]
      calc ((⌊(d - ρ) / raySpeed⌋₊ : ℕ) : ℝ) ≤ (d - ρ) / raySpeed := Nat.floor_le hq
        _ < maxRadius / raySpeed := div_lt_div_of_pos_right hR hs
    omega
  have hin : insideAny Real.sqrt [obstacle.circle (origin.add (u.scale d)) ρ]
      (sample origin u raySpeed (⌊(d - ρ) / raySpeed⌋₊ + 1)) = true := by
    rw [inside_circle_on_ray origin u hu]
    have : |((⌊(d - ρ) / raySpeed⌋₊ + 1 : ℕ) : ℝ) * raySpeed - d| < ρ := by
      push_cast
      rw [abs_lt]
      constructor <;> nlinarith
    rw [decide_eq_true_eq]
    exact this
  obtain ⟨j, hj1, hjk, hjin, hrc⟩ := raycast_hit_of_inside Real.sqrt raySpeed origin u maxRadius
    [obstacle.circle (origin.add (u.scale d)) ρ] (⌊(d - ρ) / raySpeed⌋₊ + 1) (by omega) hk0N hin
  rw [hrc]
  rw [inside_circle_on_ray origin u hu] at hjin
  have hjabs : |(j : ℝ) * raySpeed - d| < ρ := by simpa using hjin
  have hjlow : d - ρ < (j : ℝ) * raySpeed := by
    have := (abs_lt.1 hjabs).1
    linarith
  have hjk' : (j : ℝ) ≤ (⌊(d - ρ) / raySpeed⌋₊ : ℝ) + 1 := by exact_mod_cast hjk
  have hjup : (j : ℝ) * raySpeed ≤ d - ρ + raySpeed := by
    have := mul_le_mul_of_nonneg_right hjk' (le_of_lt hs)
    linarith
  have hpos : 0 ≤ (j : ℝ) * raySpeed := by positivity
  simp only [norm_sample_sub origin u hu, abs_of_nonneg hpos]
  exact ⟨trivial, hjlow, hjup⟩

/-- Witness of C5 (amended): step 1, maximal radius 3, circle of radius 1 at distance 3. -/
theorem raycast_circle_hit_within_step_witness :
    (raycast Real.sqrt 1 ⟨0, 0⟩ ⟨1, 0⟩ 3
      [obstacle.circle ((⟨0, 0⟩ : vec2 ℝ).add ((⟨1, 0⟩ : vec2 ℝ).scale 3)) 1]).1 = true :=
  (raycast_circle_hit_within_step ⟨0, 0⟩ ⟨1, 0⟩ 1 3 3 1 (by norm_num) (by norm_num)
    (by simp [vec2.norm]) (by norm_num) (by norm_num)).1

/-- Counterexample to C5 as stated, in its two forms.  (a) Circle of radius 1 at
distance 3, step 1, maximal radius 2 = d - ρ: the samples at distances 1 and 2
are not strictly inside the circle, no hit.  (b) Circle of radius 1/10 at
distance 5/2, step 1, maximal radius 3 ≥ d - ρ: the samples at distances 1, 2, 3
step over the circle, no hit. -/
theorem raycast_circle_misses :
    ((2 : ℝ) ≥ 3 - 1 ∧
      (raycast Real.sqrt 1 ⟨0, 0⟩ ⟨1, 0⟩ 2
        [obstacle.circle ((⟨0, 0⟩ : vec2 ℝ).add ((⟨1, 0⟩ : vec2 ℝ).scale 3)) 1]).1 = false) ∧
    ((3 : ℝ) ≥ 5 / 2 - 1 / 10 ∧
      (raycast Real.sqrt 1 ⟨0, 0⟩ ⟨1, 0⟩ 3
        [obstacle.circle ((⟨0, 0⟩ : vec2 ℝ).add ((⟨1, 0⟩ : vec2 ℝ).scale (5 / 2))) (1 / 10)]).1 =
        false) := by
  have hu : (⟨1, 0⟩ : vec2 ℝ).norm Real.sqrt = 1 := by simp [vec2.norm]
  have hceil2 : ⌈(2 : ℝ) / 1⌉₊ = 2 := by
    rw [Nat.ceil_eq_iff (by norm_num)]
    norm_num
  have hceil3 : ⌈(3 : ℝ) / 1⌉₊ = 3 := by
    rw [Nat.ceil_eq_iff (by norm_num)]
    norm_num
  refine ⟨⟨by norm_num, ?_⟩, ⟨by norm_num, ?_⟩⟩
  · rw [raycast_of_free]
    intro k hk hk2
    rw [hceil2] at hk2
    rw [inside_circle_on_ray _ _ hu]
    have hk' : k = 1 ∨ k = 2 := by omega
    rcases hk' with rfl | rfl <;> norm_num [abs_lt, lt_abs]
  · rw [raycast_of_free]
    intro k hk hk3
    rw [hceil3] at hk3
    rw [inside_circle_on_ray _ _ hu]
    have hk' : k = 1 ∨ k = 2 ∨ k = 3 := by omega
    rcases hk' with rfl | rfl | rfl <;> norm_num [abs_lt, lt_abs]

end RaycastClaims

/-! ## The candidate loop (lines 654-668) -/

section CandidateLoop

/-- C1 (code defect at line 665: after choosing a candidate the loop stores
`minDist = distToGoal + distToPoint`, the robot's own goal distance plus the
distance to the candidate, instead of the candidate's cost).  Not following
a border, so every candidate survives the filter.
(a) Robot `(0, 0)`, goal `(8, 0)`, `distToGoal = 8`, candidates `(0, 6)` then
`(-3, 0)`, of costs 16 and 14: after the first, `minDist = 14`, the cheaper
second fails `14 < 14`, and the costlier `(0, 6)` is followed.
(b) Robot `(0, 0)`, goal `(12, 0)`, `distToGoal = 12`, candidates `(6, 8)` then
`(-9/2, 0)`, of costs 20 and 21: after the first, `minDist = 22`, the costlier
second passes `21 < 22` and is followed. -/
theorem selectPoint_not_minimal :
    ((⟨8, 0⟩ : vec2 ℝ).sub ⟨0, 0⟩).norm Real.sqrt = 8 ∧
    skipped Real.sqrt ⟨0, 0⟩ ⟨0, 0⟩ false (⟨0, 6⟩ : vec2 ℝ) = false ∧
    skipped Real.sqrt ⟨0, 0⟩ ⟨0, 0⟩ false (⟨-3, 0⟩ : vec2 ℝ) = false ∧
    cost Real.sqrt ⟨0, 0⟩ ⟨8, 0⟩ ⟨0, 6⟩ = 16 ∧
    cost Real.sqrt ⟨0, 0⟩ ⟨8, 0⟩ ⟨-3, 0⟩ = 14 ∧
    selectPoint Real.sqrt ⟨0, 0⟩ ⟨8, 0⟩ ⟨0, 0⟩ false 8 ⟨0, 0⟩ 999999999 [⟨0, 6⟩, ⟨-3, 0⟩] =
      { pointToFollow := ⟨0, 6⟩, minDist := 14, dreach := 10 } ∧
    ((⟨12, 0⟩ : vec2 ℝ).sub ⟨0, 0⟩).norm Real.sqrt = 12 ∧
    skipped Real.sqrt ⟨0, 0⟩ ⟨0, 0⟩ false (⟨6, 8⟩ : vec2 ℝ) = false ∧
    skipped Real.sqrt ⟨0, 0⟩ ⟨0, 0⟩ false (⟨-9 / 2, 0⟩ : vec2 ℝ) = false ∧
    cost Real.sqrt ⟨0, 0⟩ ⟨12, 0⟩ ⟨6, 8⟩ = 20 ∧
    cost Real.sqrt ⟨0, 0⟩ ⟨12, 0⟩ ⟨-9 / 2, 0⟩ = 21 ∧
    selectPoint Real.sqrt ⟨0, 0⟩ ⟨12, 0⟩ ⟨0, 0⟩ false 12 ⟨0, 0⟩ 999999999
        [⟨6, 8⟩, ⟨-9 / 2, 0⟩] =
      { pointToFollow := ⟨-9 / 2, 0⟩, minDist := 33 / 2, dreach := 33 / 2 } := by
  have h64 : Real.sqrt 64 = 8 := sqrt_of_mul_self (by norm_num) (by norm_num)
  have h36 : Real.sqrt 36 = 6 := sqrt_of_mul_self (by norm_num) (by norm_num)
  have h100 : Real.sqrt 100 = 10 := sqrt_of_mul_self (by norm_num) (by norm_num)
  have h9 : Real.sqrt 9 = 3 := sqrt_of_mul_self (by norm_num) (by norm_num)
  have h121 : Real.sqrt 121 = 11 := sqrt_of_mul_self (by norm_num) (by norm_num)
  have h144 : Real.sqrt 144 = 12 := sqrt_of_mul_self (by norm_num) (by norm_num)
  have h81 : Real.sqrt (81 / 4) = 9 / 2 := sqrt_of_mul_self (by norm_num) (by norm_num)
  have h1089 : Real.sqrt (1089 / 4) = 33 / 2 := sqrt_of_mul_self (by norm_num) (by norm_num)
  refine ⟨?_, by simp [skipped], by simp [skipped], ?_, ?_, ?_, ?_, by simp [skipped],
    by simp [skipped], ?_, ?_, ?_⟩
  · norm_num [vec2.sub, vec2.norm, h64]
  · norm_num [cost, vec2.sub, vec2.norm, h36, h100]
  · norm_num [cost, vec2.sub, vec2.norm, h9, h121]
  · simp only [selectPoint, selectStep, skipped, vec2.sub, vec2.norm, List.foldl, Bool.false_and,
      Bool.false_eq_true, if_false]
    norm_num [h36, h100, h9, h121]
  · norm_num [vec2.sub, vec2.norm, h144]
  · norm_num [cost, vec2.sub, vec2.norm, h100]
  · norm_num [cost, vec2.sub, vec2.norm, h81, h1089]
  · simp only [selectPoint, selectStep, skipped, vec2.sub, vec2.norm, List.foldl, Bool.false_and,
      Bool.false_eq_true, if_false]
    norm_num [h100, h81, h1089]

/-- C2 (code defect at line 665, the same as for C1): robot at `(0, 0)`, goal at
`(8, 0)`, `distToGoal = 8`, not following a border, scanned candidates `(4, 3)`
then `(4, -3)`.  Both survive the filter and both have cost 10, the minimum.
After the first one `minDist` is `distToGoal + distToPoint = 13`, not 10, so
the second passes `10 < 13` and is the point followed, not the first. -/
theorem selectPoint_tie_takes_later :
    ((⟨8, 0⟩ : vec2 ℝ).sub ⟨0, 0⟩).norm Real.sqrt = 8 ∧
    skipped Real.sqrt ⟨0, 0⟩ ⟨0, 0⟩ false (⟨4, 3⟩ : vec2 ℝ) = false ∧
    skipped Real.sqrt ⟨0, 0⟩ ⟨0, 0⟩ false (⟨4, -3⟩ : vec2 ℝ) = false ∧
    cost Real.sqrt ⟨0, 0⟩ ⟨8, 0⟩ ⟨4, 3⟩ = 10 ∧
    cost Real.sqrt ⟨0, 0⟩ ⟨8, 0⟩ ⟨4, -3⟩ = 10 ∧
    (selectPoint Real.sqrt ⟨0, 0⟩ ⟨8, 0⟩ ⟨0, 0⟩ false 8 ⟨0, 0⟩ 999999999
      [⟨4, 3⟩, ⟨4, -3⟩]).pointToFollow = ⟨4, -3⟩ := by
  have h64 : Real.sqrt 64 = 8 := sqrt_of_mul_self (by norm_num) (by norm_num)
  have h25 : Real.sqrt 25 = 5 := sqrt_of_mul_self (by norm_num) (by norm_num)
  refine ⟨?_, by simp [skipped], by simp [skipped], ?_, ?_, ?_⟩
  · norm_num [vec2.sub, vec2.norm, h64]
  · norm_num [cost, vec2.sub, vec2.norm, h25]
  · norm_num [cost, vec2.sub, vec2.norm, h25]
  · simp only [selectPoint, selectStep, skipped, vec2.sub, vec2.norm, List.foldl, Bool.false_and,
      Bool.false_eq_true, if_false]
    norm_num [h25]

end CandidateLoop

/-! ## The angular sweep (`circleCast`, lines 359-379) -/

section Sweep

variable {K : Type} [LinearOrderedField K] [FloorRing K]

/-- The sweep only appends to the vector it is given. -/
theorem circleCastLoop_append (sqrt cos sin : K → K) (raySpeed angleStep : K) (origin : vec2 K)
    (r : K) (obstacleList : List (obstacle K)) (fuel : Nat) (angle : K) (hitting : Bool)
    (lastHitPoint : vec2 K) (hitPoints : List (vec2 K)) :
    circleCastLoop sqrt cos sin raySpeed angleStep origin r obstacleList fuel angle hitting
        lastHitPoint hitPoints =
      hitPoints ++ circleCastLoop sqrt cos sin raySpeed angleStep origin r obstacleList fuel angle
        hitting lastHitPoint [] := by
  induction fuel generalizing angle hitting lastHitPoint hitPoints with
  | zero => simp [circleCastLoop]
  | succ n ih =>
    rw [circleCastLoop]
    conv_rhs => rw [circleCastLoop]
    by_cases ha : angle < M_PI2
    · simp only [ha, if_true]
      cases hrc : (raycast sqrt raySpeed origin ⟨cos angle, sin angle⟩ r obstacleList).1 with
      | true =>
        simp only [if_true]
        rw [ih]
        conv_rhs => rw [ih]
        cases hitting <;> simp
      | false =>
        simp only [Bool.false_eq_true, if_false]
        cases hitting with
        | true =>
          simp only [if_true]
          rw [ih]
          conv_rhs => rw [ih]
          simp
        | false =>
          simp only [Bool.false_eq_true, if_false]
          exact ih _ _ _ _
    · simp [ha]

/-- Extra fuel does not change the result of the sweep once the remaining fuel
carries the angle to `M_PI2`: the loop stops by its own test. -/
theorem circleCastLoop_fuel (sqrt cos sin : K → K) (raySpeed angleStep : K) (origin : vec2 K)
    (r : K) (obstacleList : List (obstacle K)) (fuel : Nat) (angle : K) (hitting : Bool)
    (lastHitPoint : vec2 K) (hitPoints : List (vec2 K))
    (h : M_PI2 ≤ angle + fuel * angleStep) :
    circleCastLoop sqrt cos sin raySpeed angleStep origin r obstacleList (fuel + 1) angle hitting
        lastHitPoint hitPoints =
      circleCastLoop sqrt cos sin raySpeed angleStep origin r obstacleList fuel angle hitting
        lastHitPoint hitPoints := by
  induction fuel generalizing angle hitting lastHitPoint hitPoints with
  | zero =>
    have ha : ¬ (angle < M_PI2) := by
      simp only [Nat.cast_zero, zero_mul, add_zero] at h
      exact not_lt.2 h
    simp [circleCastLoop, ha]
  | succ n ih =>
    have h' : M_PI2 ≤ angle + angleStep + n * angleStep := by
      have e : angle + angleStep + n * angleStep = angle + ((n + 1 : Nat) : K) * angleStep := by
        push_cast
        ring
      rw [e]
      exact h
    rw [circleCastLoop]
    conv_rhs => rw [circleCastLoop]
    by_cases ha : angle < M_PI2
    · simp only [ha, if_true]
      cases hrc : (raycast sqrt raySpeed origin ⟨cos angle, sin angle⟩ r obstacleList).1 with
      | true =>
        simp only [if_true]
        exact ih _ _ _ _ h'
      | false =>
        simp only [Bool.false_eq_true, if_false]
        cases hitting with
        | true =>
          simp only [if_true]
          exact ih _ _ _ _ h'
        | false =>
          simp only [Bool.false_eq_true, if_false]
          exact ih _ _ _ _ h'
    · simp [ha]

/-- For a positive angle step the fuel `circleCast` gives its sweep is enough:
one more unit of fuel gives the same output. -/
theorem circleCast_fuel (sqrt cos sin : K → K) (raySpeed angleStep : K) (origin : vec2 K)
    (r : K) (obstacleList : List (obstacle K)) (hitting : Bool) (lastHitPoint : vec2 K)
    (hitPoints : List (vec2 K)) (hstep : 0 < angleStep) :
    circleCastLoop sqrt cos sin raySpeed angleStep origin r obstacleList
        (⌈(M_PI2 : K) / angleStep⌉₊ + 1) angleStep hitting lastHitPoint hitPoints =
      circleCastLoop sqrt cos sin raySpeed angleStep origin r obstacleList
        ⌈(M_PI2 : K) / angleStep⌉₊ angleStep hitting lastHitPoint hitPoints := by
  apply circleCastLoop_fuel
  have h1 : (M_PI2 : K) / angleStep ≤ (⌈(M_PI2 : K) / angleStep⌉₊ : K) := Nat.le_ceil _
  have h2 : (M_PI2 : K) ≤ (⌈(M_PI2 : K) / angleStep⌉₊ : K) * angleStep := by
    rwa [div_le_iff₀ hstep] at h1
  linarith

/-- While no ray has hit yet, the first point the sweep appends (if any) is the
value `lastHitPoint` held on entry: it is appended at the first ray that hits,
before `lastHitPoint` is assigned. -/
theorem circleCastLoop_head (sqrt cos sin : K → K) (raySpeed angleStep : K) (origin : vec2 K)
    (r : K) (obstacleList : List (obstacle K)) (fuel : Nat) (angle : K)
    (lastHitPoint : vec2 K) :
    ∀ p ∈ (circleCastLoop sqrt cos sin raySpeed angleStep origin r obstacleList fuel angle false
      lastHitPoint []).head?, p = lastHitPoint := by
  induction fuel generalizing angle with
  | zero => simp [circleCastLoop]
  | succ n ih =>
    rw [circleCastLoop]
    by_cases ha : angle < M_PI2
    · simp only [ha, if_true]
      cases hrc : (raycast sqrt raySpeed origin ⟨cos angle, sin angle⟩ r obstacleList).1 with
      | true =>
        simp only [if_true]
        rw [circleCastLoop_append]
        simp
      | false =>
        simp only [Bool.false_eq_true, if_false]
        exact ih _
    · simp [ha]

/-- Whenever the angle-0 ray of `circleCast` does not hit, the first point of
the output, if there is one, is the uninitialised `lastHitPoint`. -/
theorem circleCast_head_of_free_start (sqrt cos sin : K → K) (raySpeed angleStep : K)
    (origin : vec2 K) (r : K) (obstacleList : List (obstacle K)) (lastHitPoint : vec2 K)
    (h0 : (raycast sqrt raySpeed origin ⟨1, 0⟩ r obstacleList).1 = false) :
    ∀ p ∈ (circleCast sqrt cos sin raySpeed angleStep origin r obstacleList lastHitPoint
      []).head?, p = lastHitPoint := by
  unfold circleCast
  simp only [h0]
  exact circleCastLoop_head sqrt cos sin raySpeed angleStep origin r obstacleList _ _ _

/-- A sweep in which every ray hits, entered while hitting, appends nothing. -/
theorem circleCastLoop_all_hit (sqrt cos sin : K → K) (raySpeed angleStep : K) (origin : vec2 K)
    (r : K) (obstacleList : List (obstacle K))
    (hall : ∀ angle, (raycast sqrt raySpeed origin ⟨cos angle, sin angle⟩ r obstacleList).1 = true)
    (fuel : Nat) (angle : K) (lastHitPoint : vec2 K) (hitPoints : List (vec2 K)) :
    circleCastLoop sqrt cos sin raySpeed angleStep origin r obstacleList fuel angle true
      lastHitPoint hitPoints = hitPoints := by
  induction fuel generalizing angle lastHitPoint with
  | zero => simp [circleCastLoop]
  | succ n ih =>
    rw [circleCastLoop]
    by_cases ha : angle < M_PI2
    · simp only [ha, if_true, hall angle]
      exact ih _ _
    · simp [ha]

/-- A sweep in which no ray hits, entered while not hitting, appends nothing. -/
theorem circleCastLoop_all_miss (sqrt cos sin : K → K) (raySpeed angleStep : K) (origin : vec2 K)
    (r : K) (obstacleList : List (obstacle K))
    (hall : ∀ angle, (raycast sqrt raySpeed origin ⟨cos angle, sin angle⟩ r obstacleList).1 = false)
    (fuel : Nat) (angle : K) (lastHitPoint : vec2 K) (hitPoints : List (vec2 K)) :
    circleCastLoop sqrt cos sin raySpeed angleStep origin r obstacleList fuel angle false
      lastHitPoint hitPoints = hitPoints := by
  induction fuel generalizing angle with
  | zero => simp [circleCastLoop]
  | succ n ih =>
    rw [circleCastLoop]
    by_cases ha : angle < M_PI2
    · simp only [ha, if_true, hall angle, Bool.false_eq_true, if_false]
      exact ih _
    · simp [ha]

/-- While no ray has hit yet, a later ray of the sweep that hits makes the sweep
append the value `lastHitPoint` held on entry, as first point of the output. -/
theorem circleCastLoop_cons_of_hit (sqrt cos sin : K → K) (raySpeed angleStep : K)
    (origin : vec2 K) (r : K) (obstacleList : List (obstacle K)) (fuel : Nat) (angle : K)
    (lastHitPoint : vec2 K) (n : Nat) (hn : n < fuel)
    (hangles : ∀ m, m ≤ n → angle + m * angleStep < M_PI2)
    (hhit : (raycast sqrt raySpeed origin
      ⟨cos (angle + n * angleStep), sin (angle + n * angleStep)⟩ r obstacleList).1 = true) :
    ∃ rest, circleCastLoop sqrt cos sin raySpeed angleStep origin r obstacleList fuel angle false
      lastHitPoint [] = lastHitPoint :: rest := by
  induction fuel generalizing angle n with
  | zero => omega
  | succ f ih =>
    rw [circleCastLoop]
    have ha : angle < M_PI2 := by
      have := hangles 0 (Nat.zero_le n)
      simpa using this
    simp only [ha, if_true]
    cases hrc : (raycast sqrt raySpeed origin ⟨cos angle, sin angle⟩ r obstacleList).1 with
    | true =>
      simp only [if_true]
      refine ⟨circleCastLoop sqrt cos sin raySpeed angleStep origin r obstacleList f
        (angle + angleStep) true
        (raycast sqrt raySpeed origin ⟨cos angle, sin angle⟩ r obstacleList).2 [], ?_⟩
      rw [circleCastLoop_append]
      simp
    | false =>
      simp only [Bool.false_eq_true, if_false]
      cases n with
      | zero =>
        simp only [Nat.cast_zero, zero_mul, add_zero] at hhit
        rw [hrc] at hhit
        exact absurd hhit (by simp)
      | succ n' =>
        have e : ∀ m : Nat,
            angle + angleStep + m * angleStep = angle + ((m + 1 : Nat) : K) * angleStep := by
          intro m
          push_cast
          ring
        apply ih (angle + angleStep) n' (by omega)
        · intro m hm
          rw [e]
          exact hangles (m + 1) (by omega)
        · rw [e]
          exact hhit

end Sweep

section SweepClaims

theorem cos_four_neg : Real.cos 4 < 0 := by
  apply Real.cos_neg_of_pi_div_two_lt_of_lt
  · have := Real.pi_lt_d2
    linarith
  · have := Real.pi_gt_three
    linarith

theorem sin_four_neg : Real.sin 4 < 0 := by
  have h : Real.sin (4 - 2 * Real.pi) < 0 := by
    apply Real.sin_neg_of_neg_of_neg_pi_lt
    · have := Real.pi_gt_three
      linarith
    · have := Real.pi_lt_d2
      linarith
  rwa [Real.sin_sub_two_pi] at h

theorem sin_471_le : Real.sin (471 / 100) ≤ -(99 / 100) := by
  have h1 : Real.sin (471 / 100) = -Real.cos (471 / 100 - Real.pi - Real.pi / 2) := by
    rw [Real.cos_sub_pi_div_two, Real.sin_sub_pi, neg_neg]
  have h2 := Real.one_sub_sq_div_two_le_cos (x := 471 / 100 - Real.pi - Real.pi / 2)
  have hlo := Real.pi_gt_d2
  have hhi := Real.pi_lt_d2
  have hz1 : -(1 / 10) ≤ 471 / 100 - Real.pi - Real.pi / 2 := by linarith
  have hz2 : 471 / 100 - Real.pi - Real.pi / 2 ≤ 0 := by linarith
  have hsq : (471 / 100 - Real.pi - Real.pi / 2) ^ 2 ≤ 1 / 100 := by nlinarith
  rw [h1]
  linarith

/-- From `(0, 89/100)`, among the obstacles of the source, the ray along `(1, 0)` is free. -/
theorem raycast_source_angle_zero :
    (raycast Real.sqrt (1 / 100 / 4) ⟨0, 89 / 100⟩ ⟨1, 0⟩ (1 / 10) sourceObstacles).1 = false := by
  rw [raycast_of_free]
  intro k _ _
  have h1 : ∀ x : ℝ, ¬ (Real.sqrt (x * x + (89 / 100 - 1 / 2) * (89 / 100 - 1 / 2)) < 3 / 10) := by
    intro x
    rw [Real.sqrt_lt' (by norm_num)]
    nlinarith [mul_self_nonneg x]
  have h2 : ∀ x : ℝ,
      ¬ (Real.sqrt (x * x + (89 / 100 - -1 / 2) * (89 / 100 - -1 / 2)) < 3 / 10) := by
    intro x
    rw [Real.sqrt_lt' (by norm_num)]
    nlinarith [mul_self_nonneg x]
  simp only [insideAny, sourceObstacles, obstacle.insideObstacle, circle.insideObstacle, sample,
    vec2.sub, vec2.norm, List.any_cons, List.any_nil, Bool.or_false, mul_zero, add_zero, h1, h2,
    decide_False, Bool.or_self]

/-- From `(0, 89/100)`, among the obstacles of the source, the ray at angle `471/100` hits. -/
theorem raycast_source_angle_471 :
    (raycast Real.sqrt (1 / 100 / 4) ⟨0, 89 / 100⟩ ⟨Real.cos (471 / 100), Real.sin (471 / 100)⟩
      (1 / 10) sourceObstacles).1 = true := by
  have hceil : ⌈(1 / 10 : ℝ) / (1 / 100 / 4)⌉₊ = 40 := by
    rw [Nat.ceil_eq_iff (by norm_num)]
    norm_num
  have hin : insideAny Real.sqrt sourceObstacles
      (sample ⟨0, 89 / 100⟩ ⟨Real.cos (471 / 100), Real.sin (471 / 100)⟩ (1 / 100 / 4) 40) =
      true := by
    have hs := sin_471_le
    have hcs := Real.cos_sq_add_sin_sq (471 / 100)
    simp only [insideAny, sourceObstacles, obstacle.insideObstacle, circle.insideObstacle,
      sample, vec2.sub, vec2.norm, List.any_cons, List.any_nil, Bool.or_false, Bool.or_eq_true,
      decide_eq_true_eq, Real.sqrt_lt' (by norm_num : (0 : ℝ) < 3 / 10)]
    left
    push_cast
    nlinarith
  obtain ⟨j, _, _, _, hrc⟩ := raycast_hit_of_inside Real.sqrt (1 / 100 / 4) ⟨0, 89 / 100⟩
    ⟨Real.cos (471 / 100), Real.sin (471 / 100)⟩ (1 / 10) sourceObstacles 40 (by omega)
    (by rw [hceil]) hin
  rw [hrc]

/-- With the tunables and obstacles of the source, the scan from `(0, 89/100)`
returns a non-empty list whose first point is the uninitialised `lastHitPoint`. -/
theorem circleCast_source_head (g : vec2 ℝ) :
    ∃ rest, circleCast Real.sqrt Real.cos Real.sin (1 / 100 / 4) (1 / 100) ⟨0, 89 / 100⟩
      (1 / 10) sourceObstacles g [] = g :: rest := by
  have hfuel : ⌈(M_PI2 : ℝ) / (1 / 100)⌉₊ = 629 := by
    rw [Nat.ceil_eq_iff (by norm_num)]
    norm_num [M_PI2, M_PI]
  unfold circleCast
  simp only [raycast_source_angle_zero, hfuel]
  apply circleCastLoop_cons_of_hit Real.sqrt Real.cos Real.sin (1 / 100 / 4) (1 / 100)
    ⟨0, 89 / 100⟩ (1 / 10) sourceObstacles 629 (1 / 100) g 470 (by norm_num)
  · intro m hm
    have hm' : (m : ℝ) ≤ 470 := by exact_mod_cast hm
    have : (1 / 100 : ℝ) + m * (1 / 100) ≤ 471 / 100 := by linarith
    have h2 : (471 / 100 : ℝ) < M_PI2 := by norm_num [M_PI2, M_PI]
    linarith
  · have e : (1 / 100 : ℝ) + ((470 : ℕ) : ℝ) * (1 / 100) = 471 / 100 := by norm_num
    rw [e]
    exact raycast_source_angle_471

/-- No ray of length `1/10` from `(0, 89/100)` produces the point `(7, 7)`. -/
theorem raycast_source_ne (u : vec2 ℝ) (hu : u.x ≤ 1) :
    (raycast Real.sqrt (1 / 100 / 4) ⟨0, 89 / 100⟩ u (1 / 10) sourceObstacles).2 ≠ ⟨7, 7⟩ := by
  have hceil : ⌈(1 / 10 : ℝ) / (1 / 100 / 4)⌉₊ = 40 := by
    rw [Nat.ceil_eq_iff (by norm_num)]
    norm_num
  obtain ⟨k, hk, hrc⟩ := raycast_snd_sample Real.sqrt (1 / 100 / 4) ⟨0, 89 / 100⟩ u (1 / 10)
    sourceObstacles
  rw [hceil] at hk
  rw [hrc]
  intro h
  have hx := congrArg vec2.x h
  simp only [sample] at hx
  have hk' : (k : ℝ) ≤ 40 := by exact_mod_cast hk
  have hk0 : (0 : ℝ) ≤ k := Nat.cast_nonneg k
  nlinarith

/-- A sweep of two rays (angle step 4, ray step 1, radius 1) around `(0, 0)` with
one circle of centre `(-1, -1)` and radius 1: the angle-0 cast is free and
produces `(1, 0)`, the cast at angle 4 hits, and the output is the value held
by the uninitialised `lastHitPoint`. -/
theorem circleCast_two_rays :
    raycast Real.sqrt 1 ⟨0, 0⟩ ⟨1, 0⟩ 1 [obstacle.circle ⟨-1, -1⟩ 1] = (false, ⟨1, 0⟩) ∧
    (raycast Real.sqrt 1 ⟨0, 0⟩ ⟨Real.cos 4, Real.sin 4⟩ 1 [obstacle.circle ⟨-1, -1⟩ 1]).1 = true ∧
    circleCast Real.sqrt Real.cos Real.sin 1 4 ⟨0, 0⟩ 1 [obstacle.circle ⟨-1, -1⟩ 1] ⟨7, 7⟩ [] =
      [⟨7, 7⟩] := by
  have hceil : ⌈(1 : ℝ) / 1⌉₊ = 1 := by
    rw [Nat.ceil_eq_iff (by norm_num)]
    norm_num
  have hfuel : ⌈(M_PI2 : ℝ) / 4⌉₊ = 2 := by
    rw [Nat.ceil_eq_iff (by norm_num)]
    norm_num [M_PI2, M_PI]
  have h0 : raycast Real.sqrt 1 ⟨0, 0⟩ ⟨1, 0⟩ 1 [obstacle.circle ⟨-1, -1⟩ 1] =
      (false, ⟨1, 0⟩) := by
    rw [raycast_of_free]
    · simp [sample, hceil]
    · intro k hk hk1
      rw [hceil] at hk1
      have : k = 1 := by omega
      subst this
      have h5 : ¬ (Real.sqrt 5 < 1) := by
        rw [Real.sqrt_lt' (by norm_num : (0 : ℝ) < 1)]
        norm_num
      have hsq : (1 - -1 : ℝ) * (1 - -1) + (0 - -1) * (0 - -1) = 5 := by norm_num
      simp only [insideAny, obstacle.insideObstacle, circle.insideObstacle, sample, vec2.sub,
        vec2.norm, List.any_cons, List.any_nil, Bool.or_false, Nat.cast_one, one_mul, zero_add,
        mul_one, mul_zero, hsq]
      exact decide_eq_false h5
  have h4 : (raycast Real.sqrt 1 ⟨0, 0⟩ ⟨Real.cos 4, Real.sin 4⟩ 1
      [obstacle.circle ⟨-1, -1⟩ 1]).1 = true := by
    have hin : insideAny Real.sqrt [obstacle.circle ⟨-1, -1⟩ 1]
        (sample ⟨0, 0⟩ ⟨Real.cos 4, Real.sin 4⟩ 1 1) = true := by
      have hc := cos_four_neg
      have hs := sin_four_neg
      have hcs := Real.cos_sq_add_sin_sq 4
      have hsum : Real.cos 4 + Real.sin 4 < -1 := by
        by_contra hge
        have h1 : 0 ≤ Real.cos 4 + Real.sin 4 + 1 := by linarith
        have h2 : 0 ≤ -(Real.cos 4 + Real.sin 4) := by linarith
        nlinarith [mul_pos_of_neg_of_neg hc hs, mul_nonneg h1 h2]
      simp only [insideAny, obstacle.insideObstacle, circle.insideObstacle, sample, vec2.sub,
        vec2.norm, List.any_cons, List.any_nil, Bool.or_false, decide_eq_true_eq, Nat.cast_one,
        one_mul, zero_add]
      rw [Real.sqrt_lt' (by norm_num)]
      nlinarith
    obtain ⟨j, _, _, _, hrc⟩ := raycast_hit_of_inside Real.sqrt 1 ⟨0, 0⟩
      ⟨Real.cos 4, Real.sin 4⟩ 1 [obstacle.circle ⟨-1, -1⟩ 1] 1 (by omega) (by rw [hceil]) hin
    rw [hrc]
  refine ⟨h0, h4, ?_⟩
  have ha1 : (4 : ℝ) < M_PI2 := by norm_num [M_PI2, M_PI]
  have ha2 : ¬ ((4 : ℝ) + 4 < M_PI2) := by norm_num [M_PI2, M_PI]
  simp [circleCast, hfuel, circleCastLoop, h0, h4, ha1, ha2]

end SweepClaims

/-! ## The candidate loop when nothing is chosen, and the bound on `dreach` -/

section Selection

variable {K : Type} [LinearOrderedField K]

/-- Candidates that are all skipped leave the three loop variables as they were. -/
theorem foldl_selectStep_skipped (sqrt : K → K) (robotCenter goalCenter lastDirection : vec2 K)
    (followingBorder : Bool) (distToGoal : K) (points : List (vec2 K)) (acc : Selection K)
    (h : ∀ p ∈ points, skipped sqrt robotCenter lastDirection followingBorder p = true) :
    points.foldl (selectStep sqrt robotCenter goalCenter lastDirection followingBorder distToGoal)
      acc = acc := by
  induction points generalizing acc with
  | nil => rfl
  | cons p ps ih =>
    rw [List.foldl_cons]
    have hp : selectStep sqrt robotCenter goalCenter lastDirection followingBorder distToGoal acc p
        = acc := by
      simp [selectStep, h p (List.mem_cons_self p ps)]
    rw [hp]
    exact ih acc (fun q hq => h q (List.mem_cons_of_mem p hq))

/-- The loop assigns `pointToFollow` and `dreach` together, so it keeps
`|goalCenter - pointToFollow| ≤ dreach`. -/
theorem foldl_selectStep_bound (sqrt : K → K) (robotCenter goalCenter lastDirection : vec2 K)
    (followingBorder : Bool) (distToGoal : K) (points : List (vec2 K)) (acc : Selection K)
    (h : (goalCenter.sub acc.pointToFollow).norm sqrt ≤ acc.dreach) :
    (goalCenter.sub (points.foldl
        (selectStep sqrt robotCenter goalCenter lastDirection followingBorder distToGoal)
        acc).pointToFollow).norm sqrt ≤
      (points.foldl (selectStep sqrt robotCenter goalCenter lastDirection followingBorder
        distToGoal) acc).dreach := by
  induction points generalizing acc with
  | nil => exact h
  | cons p ps ih =>
    rw [List.foldl_cons]
    apply ih
    unfold selectStep
    by_cases hs : skipped sqrt robotCenter lastDirection followingBorder p = true
    · simp only [hs, if_true]
      exact h
    · simp only [hs, if_false]
      by_cases hc : (goalCenter.sub p).norm sqrt + (p.sub robotCenter).norm sqrt < acc.minDist
      · simp only [hc, if_true]
        exact le_refl _
      · simp only [hc, if_false]
        exact h

end Selection

/-! ## The update of one iteration -/

section TickClaims

/-- C8: from every state with `distToGoal ≤ robotSpeed`, whatever the mode, the
obstacle list and the other tunables, one tick puts `robotCenter` exactly on
`goalCenter` and sets `done`. -/
theorem tick_snaps_to_goal {K : Type} [LinearOrderedField K] [FloorRing K]
    (c : Config K) (s : RobotState K) (h : s.distToGoal ≤ c.robotSpeed) :
    (tick c s).robotCenter = c.goalCenter ∧ (tick c s).done = true := by
  have hmove : move c s = goalReached c s := by
    unfold move
    rw [if_pos h]
  constructor
  · rw [tick, switchToDirect_robotCenter, switchToBoundary_robotCenter, remeasure_robotCenter,
      hmove]
    rfl
  · rw [tick, switchToDirect_done, switchToBoundary_done, remeasure_done, hmove]
    rfl

/-- Witness of C8: the source's tunables and obstacles, the robot at
`(0, -199/200)` in boundary-following mode, at distance `1/200 ≤ 1/100` of the goal. -/
theorem tick_snaps_to_goal_witness :
    (tick (sourceConfig Real.sqrt Real.cos Real.sin
        [obstacle.circle ⟨0, 1 / 2⟩ (3 / 10), obstacle.circle ⟨0, -1 / 2⟩ (3 / 10)] ⟨0, 0⟩)
      { robotCenter := ⟨0, -199 / 200⟩, movingTowards := ⟨0, -1⟩, followingBorder := true,
        goalDirection := ⟨0, -1⟩, distToGoal := 1 / 200, lastDistToGoal := 3 / 200,
        dreach := 1, dfollowed := 1 / 2, lastDirection := ⟨0, -1⟩, pointToFollow := ⟨0, -1⟩,
        followingBoundaryStartingPos := ⟨0, 0⟩, done := false }).robotCenter = ⟨0, -1⟩ :=
  (tick_snaps_to_goal (sourceConfig Real.sqrt Real.cos Real.sin
      [obstacle.circle ⟨0, 1 / 2⟩ (3 / 10), obstacle.circle ⟨0, -1 / 2⟩ (3 / 10)] ⟨0, 0⟩)
    { robotCenter := ⟨0, -199 / 200⟩, movingTowards := ⟨0, -1⟩, followingBorder := true,
      goalDirection := ⟨0, -1⟩, distToGoal := 1 / 200, lastDistToGoal := 3 / 200,
      dreach := 1, dfollowed := 1 / 2, lastDirection := ⟨0, -1⟩, pointToFollow := ⟨0, -1⟩,
      followingBoundaryStartingPos := ⟨0, 0⟩, done := false }
    (by norm_num [sourceConfig])).1

/-! ### The two mode switches of one tick -/

/-- One tick keeps the bound `|goalCenter - pointToFollow| ≤ dreach`. -/
theorem tick_dreachBound {K : Type} [LinearOrderedField K] [FloorRing K]
    (c : Config K) (s : RobotState K) (h : dreachBound c s) : dreachBound c (tick c s) := by
  unfold dreachBound at h ⊢
  simp only [tick, switchToDirect_pointToFollow, switchToDirect_dreach,
    switchToBoundary_pointToFollow, switchToBoundary_dreach, remeasure_pointToFollow,
    remeasure_dreach]
  unfold move
  split
  · exact h
  · split
    · exact h
    · simp only [boundaryMove, chosen, selectPoint]
      exact foldl_selectStep_bound _ _ _ _ _ _ _ _ h

/-- The bound holds in every state reached from a state where it holds. -/
theorem reachable_dreachBound {K : Type} [LinearOrderedField K] [FloorRing K]
    (c : Config K) (s₀ s : RobotState K) (h₀ : dreachBound c s₀) (hr : Reachable c s₀ s) :
    dreachBound c s := by
  induction hr with
  | start => exact h₀
  | step _ _ ih => exact tick_dreachBound c _ ih

/-- In every state reached from a state with `|goalCenter - pointToFollow| ≤ dreach`
(which holds from the first tick that chooses a candidate on), a tick that
executes the switch to boundary following finds `dreach < dfollowed` false
afterwards and ends following the border. -/
theorem reachable_single_switch {K : Type} [LinearOrderedField K] [FloorRing K]
    (c : Config K) (s₀ s : RobotState K) (h₀ : dreachBound c s₀) (hr : Reachable c s₀ s)
    (hsw : startsFollowing (remeasure c (move c s)) = true) :
    leavesBoundary (switchToBoundary c (remeasure c (move c s))) = false ∧
    (tick c s).followingBorder = true := by
  have hb : dreachBound c (tick c s) := tick_dreachBound c s (reachable_dreachBound c s₀ s h₀ hr)
  unfold dreachBound at hb
  simp only [tick, switchToDirect_pointToFollow, switchToDirect_dreach,
    switchToBoundary_pointToFollow, switchToBoundary_dreach] at hb
  have hleave : leavesBoundary (switchToBoundary c (remeasure c (move c s))) = false := by
    simp only [leavesBoundary, switchToBoundary, hsw, if_true, Bool.true_and,
      decide_eq_false_iff_not, not_lt]
    exact hb
  refine ⟨hleave, ?_⟩
  simp only [tick, switchToDirect, hleave, Bool.false_eq_true, if_false]
  simp [switchToBoundary, hsw]

/-- From `(0, 1)` every unit ray of length `1/10` hits a circle of `courtyard`. -/
theorem raycast_courtyard (u : vec2 ℝ) (hu : u.x * u.x + u.y * u.y = 1) :
    (raycast Real.sqrt (1 / 100 / 4) ⟨0, 1⟩ u (1 / 10) courtyard).1 = true := by
  have hceil : ⌈(1 / 10 : ℝ) / (1 / 100 / 4)⌉₊ = 40 := by
    rw [Nat.ceil_eq_iff (by norm_num)]
    norm_num
  have hin : insideAny Real.sqrt courtyard (sample ⟨0, 1⟩ u (1 / 100 / 4) 40) = true := by
    simp only [insideAny, courtyard, obstacle.insideObstacle, circle.insideObstacle, sample,
      vec2.sub, vec2.norm, List.any_cons, List.any_nil, Bool.or_false, Bool.or_eq_true,
      decide_eq_true_eq, Real.sqrt_lt' (by norm_num : (0 : ℝ) < 1 / 8)]
    push_cast
    rcases le_total 0 u.x with hx | hx <;> rcases le_total 0 u.y with hy | hy
    · left
      nlinarith [mul_nonneg hx hy]
    · right; right; right
      nlinarith [mul_nonneg hx (neg_nonneg.2 hy)]
    · right; left
      nlinarith [mul_nonneg (neg_nonneg.2 hx) hy]
    · right; right; left
      nlinarith [mul_nonneg (neg_nonneg.2 hx) (neg_nonneg.2 hy)]
  obtain ⟨j, _, _, _, hrc⟩ := raycast_hit_of_inside Real.sqrt (1 / 100 / 4) ⟨0, 1⟩ u (1 / 10)
    courtyard 40 (by omega) (by rw [hceil]) hin
  rw [hrc]

theorem norm_vertical (y : ℝ) : (⟨0, y⟩ : vec2 ℝ).norm Real.sqrt = |y| := by
  simp only [vec2.norm, mul_zero, zero_add]
  exact Real.sqrt_mul_self_eq_abs y

theorem sub_vertical (a b : ℝ) : (⟨0, a⟩ : vec2 ℝ).sub ⟨0, b⟩ = ⟨0, a - b⟩ := by
  simp [vec2.sub]

theorem normalize_vertical (y : ℝ) : normalize Real.sqrt (⟨0, y⟩ : vec2 ℝ) = ⟨0, y / |y|⟩ := by
  simp only [normalize, norm_vertical, zero_div]

/-- In `courtyard` the first scan from `(0, 1)` is empty: every ray hits. -/
theorem scan_courtyard (g : vec2 ℝ) (s : RobotState ℝ) (hs : s.robotCenter = ⟨0, 1⟩) :
    scan (sourceConfig Real.sqrt Real.cos Real.sin courtyard g) s = [] := by
  unfold scan circleCast
  simp only [sourceConfig, hs]
  rw [raycast_courtyard ⟨1, 0⟩ (by norm_num)]
  exact circleCastLoop_all_hit _ _ _ _ _ _ _ _
    (fun angle => raycast_courtyard ⟨Real.cos angle, Real.sin angle⟩
      (by have := Real.cos_sq_add_sin_sq angle; nlinarith)) _ _ _ _

/-- The move of the first tick in `courtyard`: the ray to the goal is blocked, the
scan is empty, no candidate is chosen, and the robot steps from `(0, 1)` to
`(0, 101/100)`, towards the value `(0, 2000000001)` that `pointToFollow` holds. -/
theorem move_courtyard_start :
    move (sourceConfig Real.sqrt Real.cos Real.sin courtyard ⟨0, 0⟩)
      (initialState Real.sqrt ⟨0, 1⟩ ⟨0, -1⟩ ⟨0, 0⟩ ⟨0, 2000000001⟩ ⟨0, 0⟩) =
      { robotCenter := ⟨0, 101 / 100⟩
        movingTowards := ⟨0, 2000000001⟩
        followingBorder := false
        goalDirection := ⟨0, -1⟩
        distToGoal := 2
        lastDistToGoal := 2
        dreach := 999999999
        dfollowed := 999999999
        lastDirection := ⟨0, 0⟩
        pointToFollow := ⟨0, 2000000001⟩
        followingBoundaryStartingPos := ⟨0, 0⟩
        done := false } := by
  have hclear : lineOfSightClear (sourceConfig Real.sqrt Real.cos Real.sin courtyard ⟨0, 0⟩)
      (initialState Real.sqrt ⟨0, 1⟩ ⟨0, -1⟩ ⟨0, 0⟩ ⟨0, 2000000001⟩ ⟨0, 0⟩) = false := by
    simp only [lineOfSightClear, initialState, sourceConfig, sub_vertical, normalize_vertical]
    rw [raycast_courtyard _ (by norm_num [abs_of_pos])]
    rfl
  have hsel : chosen (sourceConfig Real.sqrt Real.cos Real.sin courtyard ⟨0, 0⟩)
      (initialState Real.sqrt ⟨0, 1⟩ ⟨0, -1⟩ ⟨0, 0⟩ ⟨0, 2000000001⟩ ⟨0, 0⟩) =
      { pointToFollow := ⟨0, 2000000001⟩, minDist := 9999999999, dreach := 999999999 } := by
    unfold chosen
    rw [scan_courtyard _ _ rfl]
    rfl
  have hfar : ¬ ((initialState Real.sqrt ⟨0, 1⟩ ⟨0, -1⟩ ⟨0, 0⟩ ⟨0, 2000000001⟩
      ⟨0, 0⟩).distToGoal ≤
      (sourceConfig Real.sqrt Real.cos Real.sin courtyard ⟨0, 0⟩).robotSpeed) := by
    simp only [initialState, sourceConfig, sub_vertical, norm_vertical]
    norm_num [abs_of_pos]
  unfold move
  rw [if_neg hfar, hclear]
  simp only [Bool.false_eq_true, if_false, boundaryMove, hsel]
  simp only [initialState, sourceConfig, sub_vertical, norm_vertical, normalize_vertical,
    vec2.add, vec2.scale]
  norm_num [abs_of_pos]
  rw [sub_vertical, normalize_vertical]
  norm_num [abs_of_neg]

/-! ### The first iterations of the program with the obstacles of the source -/

/-- From `(0, y)` with `9/10 ≤ y`, the ray of length `1/10` towards the goal is free. -/
theorem raycast_source_down_free (y : ℝ) (hy : 9 / 10 ≤ y) :
    (raycast Real.sqrt (1 / 100 / 4) ⟨0, y⟩ ⟨0, -1⟩ (1 / 10) sourceObstacles).1 = false := by
  have hceil : ⌈(1 / 10 : ℝ) / (1 / 100 / 4)⌉₊ = 40 := by
    rw [Nat.ceil_eq_iff (by norm_num)]
    norm_num
  rw [raycast_of_free]
  intro k _ hk
  rw [hceil] at hk
  have hk' : (k : ℝ) ≤ 40 := by exact_mod_cast hk
  have h1 : ¬ (Real.sqrt ((0 + k * (1 / 100 / 4) * 0 - 0) * (0 + k * (1 / 100 / 4) * 0 - 0) +
      (y + k * (1 / 100 / 4) * -1 - 1 / 2) * (y + k * (1 / 100 / 4) * -1 - 1 / 2)) < 3 / 10) := by
    rw [Real.sqrt_lt' (by norm_num)]
    nlinarith
  have h2 : ¬ (Real.sqrt ((0 + k * (1 / 100 / 4) * 0 - 0) * (0 + k * (1 / 100 / 4) * 0 - 0) +
      (y + k * (1 / 100 / 4) * -1 - -1 / 2) * (y + k * (1 / 100 / 4) * -1 - -1 / 2)) <
      3 / 10) := by
    rw [Real.sqrt_lt' (by norm_num)]
    nlinarith
  simp only [insideAny, sourceObstacles, obstacle.insideObstacle, circle.insideObstacle, sample,
    vec2.sub, vec2.norm, List.any_cons, List.any_nil, Bool.or_false, h1, h2, decide_False,
    Bool.or_self]

/-- From `(0, 89/100)` the ray of length `1/10` towards the goal hits the upper circle. -/
theorem raycast_source_down_blocked :
    (raycast Real.sqrt (1 / 100 / 4) ⟨0, 89 / 100⟩ ⟨0, -1⟩ (1 / 10) sourceObstacles).1 = true := by
  have hceil : ⌈(1 / 10 : ℝ) / (1 / 100 / 4)⌉₊ = 40 := by
    rw [Nat.ceil_eq_iff (by norm_num)]
    norm_num
  have hin : insideAny Real.sqrt sourceObstacles
      (sample ⟨0, 89 / 100⟩ ⟨0, -1⟩ (1 / 100 / 4) 40) = true := by
    simp only [insideAny, sourceObstacles, obstacle.insideObstacle, circle.insideObstacle,
      sample, vec2.sub, vec2.norm, List.any_cons, List.any_nil, Bool.or_false, Bool.or_eq_true,
      decide_eq_true_eq, Real.sqrt_lt' (by norm_num : (0 : ℝ) < 3 / 10)]
    left
    norm_num
  obtain ⟨j, _, _, _, hrc⟩ := raycast_hit_of_inside Real.sqrt (1 / 100 / 4) ⟨0, 89 / 100⟩
    ⟨0, -1⟩ (1 / 10) sourceObstacles 40 (by omega) (by rw [hceil]) hin
  rw [hrc]

/-- One tick of the descent: from `(0, y)` with `9/10 ≤ y ≤ 1` the robot moves
straight to `(0, y - 1/100)` and stays in direct mode. -/
theorem tick_descending (g : vec2 ℝ) (y : ℝ) (s : RobotState ℝ) (hy : 9 / 10 ≤ y)
    (hs : descending y s) :
    descending (y - 1 / 100)
      (tick (sourceConfig Real.sqrt Real.cos Real.sin sourceObstacles g) s) := by
  obtain ⟨hrc, hgd, hfb, hd, hdone⟩ := hs
  have hfar : ¬ (s.distToGoal ≤
      (sourceConfig Real.sqrt Real.cos Real.sin sourceObstacles g).robotSpeed) := by
    rw [hd]
    simp only [sourceConfig]
    linarith
  have hclear : lineOfSightClear (sourceConfig Real.sqrt Real.cos Real.sin sourceObstacles g) s
      = true := by
    simp only [lineOfSightClear, sourceConfig, hrc, hgd, hfb, raycast_source_down_free y hy]
    rfl
  have hmove : move (sourceConfig Real.sqrt Real.cos Real.sin sourceObstacles g) s =
      directMove (sourceConfig Real.sqrt Real.cos Real.sin sourceObstacles g) s := by
    unfold move
    rw [if_neg hfar, if_pos hclear]
  have hpos : (directMove (sourceConfig Real.sqrt Real.cos Real.sin sourceObstacles g)
      s).robotCenter = ⟨0, y - 1 / 100⟩ := by
    simp only [directMove, sourceConfig, hrc, hgd, vec2.add, vec2.scale]
    norm_num
    ring
  have hdist : (remeasure (sourceConfig Real.sqrt Real.cos Real.sin sourceObstacles g)
      (directMove (sourceConfig Real.sqrt Real.cos Real.sin sourceObstacles g) s)).distToGoal =
      y - 1 / 100 + 1 := by
    simp only [remeasure, hpos]
    simp only [sourceConfig, sub_vertical, norm_vertical]
    rw [abs_of_neg (by linarith)]
    ring
  have hnoswitch : startsFollowing
      (remeasure (sourceConfig Real.sqrt Real.cos Real.sin sourceObstacles g)
        (directMove (sourceConfig Real.sqrt Real.cos Real.sin sourceObstacles g) s)) = false := by
    unfold startsFollowing
    rw [hdist]
    simp only [remeasure, directMove, hfb, hd, Bool.not_false, Bool.true_and,
      decide_eq_false_iff_not, not_lt, gt_iff_lt]
    linarith
  have htick : tick (sourceConfig Real.sqrt Real.cos Real.sin sourceObstacles g) s =
      remeasure (sourceConfig Real.sqrt Real.cos Real.sin sourceObstacles g)
        (directMove (sourceConfig Real.sqrt Real.cos Real.sin sourceObstacles g) s) := by
    unfold tick
    rw [hmove]
    unfold switchToBoundary
    rw [hnoswitch]
    simp only [Bool.false_eq_true, if_false]
    unfold switchToDirect leavesBoundary
    simp [remeasure, directMove, hfb]
  rw [htick]
  refine ⟨?_, ?_, ?_, hdist, ?_⟩
  · rw [remeasure_robotCenter, hpos]
  · simp only [remeasure, directMove, hgd]
  · simp only [remeasure, directMove, hfb]
  · simp only [remeasure, directMove, hdone]

/-- The program as it is in the source (tunables, obstacles, start at `(0, 1)`)
reaches, for every `j ≤ 11`, a state of the descent at `(0, 1 - j/100)`. -/
theorem reachable_descending (g ld ptf fb : vec2 ℝ) (j : Nat) (hj : j ≤ 11) :
    ∃ s, Reachable (sourceConfig Real.sqrt Real.cos Real.sin sourceObstacles g)
        (initialState Real.sqrt ⟨0, 1⟩ ⟨0, -1⟩ ld ptf fb) s ∧
      descending (1 - (j : ℝ) / 100) s := by
  induction j with
  | zero =>
    refine ⟨_, Reachable.start, ?_⟩
    simp only [descending, initialState, sub_vertical, norm_vertical, normalize_vertical]
    norm_num [abs_of_neg]
  | succ n ih =>
    obtain ⟨s, hr, hs⟩ := ih (by omega)
    have hn : (n : ℝ) ≤ 10 := by
      have : n ≤ 10 := by omega
      exact_mod_cast this
    refine ⟨_, Reachable.step hr hs.2.2.2.2, ?_⟩
    have h := tick_descending g (1 - (n : ℝ) / 100) s (by linarith) hs
    have e : (1 - (n : ℝ) / 100 - 1 / 100) = 1 - ((n + 1 : ℕ) : ℝ) / 100 := by
      push_cast
      ring
    rw [e] at h
    exact h

/-- C6 (code defect at lines 362-371: `lastHitPoint` is declared uninitialised,
appended at line 369 and assigned only at line 371, by rays that hit).
(a) The program as it is in the source (tunables, obstacles, start at
`(0, 1)`), with the uninitialised `lastHitPoint` holding `(7, 7)`: it reaches
`(0, 89/100)`, where the ray to the goal is blocked; the scan made there finds
its first transition from a free ray to a ray that hits and appends `(7, 7)`,
which is not the point produced by any ray cast from there, in particular not
by the ray of the preceding angle.  (b) A sweep of two rays in which the
preceding angle of the first transition is angle 0: the angle-0 cast produces
`(1, 0)`, the output is `[(7, 7)]`. -/
theorem circleCast_appends_uninitialised_lastHitPoint :
    (∃ s, Reachable (sourceConfig Real.sqrt Real.cos Real.sin sourceObstacles ⟨7, 7⟩)
        (initialState Real.sqrt ⟨0, 1⟩ ⟨0, -1⟩ ⟨0, 0⟩ ⟨0, 0⟩ ⟨0, 0⟩) s ∧
      s.robotCenter = ⟨0, 89 / 100⟩ ∧
      move (sourceConfig Real.sqrt Real.cos Real.sin sourceObstacles ⟨7, 7⟩) s =
        boundaryMove (sourceConfig Real.sqrt Real.cos Real.sin sourceObstacles ⟨7, 7⟩) s ∧
      (∃ rest, scan (sourceConfig Real.sqrt Real.cos Real.sin sourceObstacles ⟨7, 7⟩) s =
        ⟨7, 7⟩ :: rest) ∧
      (raycast Real.sqrt (1 / 100 / 4) s.robotCenter ⟨1, 0⟩ (1 / 10) sourceObstacles).2 ≠
        ⟨7, 7⟩ ∧
      ∀ angle, (raycast Real.sqrt (1 / 100 / 4) s.robotCenter
        ⟨Real.cos angle, Real.sin angle⟩ (1 / 10) sourceObstacles).2 ≠ ⟨7, 7⟩) ∧
    (raycast Real.sqrt 1 ⟨0, 0⟩ ⟨1, 0⟩ 1 [obstacle.circle ⟨-1, -1⟩ 1] = (false, ⟨1, 0⟩) ∧
      (raycast Real.sqrt 1 ⟨0, 0⟩ ⟨Real.cos 4, Real.sin 4⟩ 1
        [obstacle.circle ⟨-1, -1⟩ 1]).1 = true ∧
      circleCast Real.sqrt Real.cos Real.sin 1 4 ⟨0, 0⟩ 1 [obstacle.circle ⟨-1, -1⟩ 1] ⟨7, 7⟩ [] =
        [⟨7, 7⟩]) := by
  refine ⟨?_, circleCast_two_rays⟩
  obtain ⟨s, hr, hrc, hgd, hfb, hd, hdone⟩ := reachable_descending ⟨7, 7⟩ ⟨0, 0⟩ ⟨0, 0⟩ ⟨0, 0⟩ 11
    (le_refl 11)
  have e : (1 - ((11 : ℕ) : ℝ) / 100) = 89 / 100 := by norm_num
  rw [e] at hrc hd
  refine ⟨s, hr, hrc, ?_, ?_, ?_, ?_⟩
  · have hfar : ¬ (s.distToGoal ≤
        (sourceConfig Real.sqrt Real.cos Real.sin sourceObstacles ⟨7, 7⟩).robotSpeed) := by
      rw [hd]
      norm_num [sourceConfig]
    have hblocked : lineOfSightClear
        (sourceConfig Real.sqrt Real.cos Real.sin sourceObstacles ⟨7, 7⟩) s = false := by
      simp only [lineOfSightClear, sourceConfig, hrc, hgd, hfb, raycast_source_down_blocked]
      rfl
    unfold move
    rw [if_neg hfar, hblocked]
    rfl
  · unfold scan
    simp only [sourceConfig, hrc]
    exact circleCast_source_head ⟨7, 7⟩
  · rw [hrc]
    exact raycast_source_ne ⟨1, 0⟩ (by norm_num)
  · intro angle
    rw [hrc]
    exact raycast_source_ne ⟨Real.cos angle, Real.sin angle⟩ (Real.cos_le_one angle)

/-! ### The boundary-scan branch without a candidate -/

/-- The boundary-scan branch when no scanned candidate survives the filter:
`pointToFollow` keeps its old value and the robot steps towards it. -/
theorem tick_no_candidate {K : Type} [LinearOrderedField K] [FloorRing K]
    (c : Config K) (s : RobotState K) (hfar : ¬ s.distToGoal ≤ c.robotSpeed)
    (hblocked : lineOfSightClear c s = false)
    (hnone : ∀ p ∈ scan c s,
      skipped c.sqrt s.robotCenter s.lastDirection s.followingBorder p = true) :
    (tick c s).pointToFollow = s.pointToFollow ∧
    (tick c s).robotCenter = s.robotCenter.add
      ((normalize c.sqrt (s.pointToFollow.sub s.robotCenter)).scale c.robotSpeed) := by
  have hsel : chosen c s =
      { pointToFollow := s.pointToFollow, minDist := 9999999999, dreach := s.dreach } := by
    unfold chosen selectPoint
    exact foldl_selectStep_skipped _ _ _ _ _ _ _ _ hnone
  simp [tick, move, hfar, hblocked, boundaryMove, hsel]

/-- A step of `normalize v * speed` has length `speed`, for `v ≠ 0` and `speed ≥ 0`. -/
theorem norm_normalize_scale (v : vec2 ℝ) (hv : v ≠ ⟨0, 0⟩) (speed : ℝ) (hspeed : 0 ≤ speed) :
    ((normalize Real.sqrt v).scale speed).norm Real.sqrt = speed := by
  have hpos : 0 < v.x * v.x + v.y * v.y := by
    rcases eq_or_ne v.x 0 with hx | hx
    · have hy : v.y ≠ 0 := by
        intro hy
        apply hv
        ext <;> assumption
      nlinarith [mul_self_pos.2 hy, mul_self_nonneg v.x]
    · nlinarith [mul_self_pos.2 hx, mul_self_nonneg v.y]
  have hn : 0 < Real.sqrt (v.x * v.x + v.y * v.y) := Real.sqrt_pos.2 hpos
  have hsq : Real.sqrt (v.x * v.x + v.y * v.y) * Real.sqrt (v.x * v.x + v.y * v.y) =
      v.x * v.x + v.y * v.y := Real.mul_self_sqrt (le_of_lt hpos)
  simp only [normalize, vec2.scale, vec2.norm]
  apply sqrt_of_mul_self hspeed
  field_simp
  nlinarith [hsq]

theorem add_sub_self (u w : vec2 ℝ) : (u.add w).sub u = w := by
  ext <;> simp [vec2.add, vec2.sub]

/-- C7 (amended): in every tick that takes the boundary-scan branch and in which
no scanned candidate survives the filter (in particular when `circleCast`
returns the empty sequence), `pointToFollow` keeps the value it had before the
tick and the robot is not left where it was: `robotCenter` becomes
`robotCenter + normalize (pointToFollow - robotCenter) * robotSpeed`, one step
of length `robotSpeed` towards the point followed before (for
`pointToFollow ≠ robotCenter` and `robotSpeed ≥ 0`, in exact real arithmetic). -/
theorem tick_no_candidate_steps_to_old_point (c : Config ℝ) (s : RobotState ℝ)
    (hsqrt : c.sqrt = Real.sqrt) (hfar : ¬ s.distToGoal ≤ c.robotSpeed)
    (hblocked : lineOfSightClear c s = false)
    (hnone : ∀ p ∈ scan c s,
      skipped c.sqrt s.robotCenter s.lastDirection s.followingBorder p = true)
    (hne : s.pointToFollow ≠ s.robotCenter) (hspeed : 0 ≤ c.robotSpeed) :
    (tick c s).pointToFollow = s.pointToFollow ∧
    (tick c s).robotCenter = s.robotCenter.add
      ((normalize Real.sqrt (s.pointToFollow.sub s.robotCenter)).scale c.robotSpeed) ∧
    ((tick c s).robotCenter.sub s.robotCenter).norm Real.sqrt = c.robotSpeed := by
  obtain ⟨h1, h2⟩ := tick_no_candidate c s hfar hblocked hnone
  rw [hsqrt] at h2
  refine ⟨h1, h2, ?_⟩
  rw [h2, add_sub_self]
  apply norm_normalize_scale _ _ _ hspeed
  intro h0
  apply hne
  have hx := congrArg vec2.x h0
  have hy := congrArg vec2.y h0
  simp only [vec2.sub] at hx hy
  ext
  · linarith
  · linarith

/-- From `(3/4, 0)` no ray of length `1/10` reaches the two circles of the source. -/
theorem raycast_far_from_sourceObstacles (u : vec2 ℝ) (hu : -1 ≤ u.x) :
    (raycast Real.sqrt (1 / 100 / 4) ⟨3 / 4, 0⟩ u (1 / 10) sourceObstacles).1 = false := by
  have hceil : ⌈(1 / 10 : ℝ) / (1 / 100 / 4)⌉₊ = 40 := by
    rw [Nat.ceil_eq_iff (by norm_num)]
    norm_num
  rw [raycast_of_free]
  intro k _ hk
  rw [hceil] at hk
  have hk' : (k : ℝ) ≤ 40 := by exact_mod_cast hk
  have hk0 : (0 : ℝ) ≤ k := Nat.cast_nonneg k
  have hx : (13 / 20 : ℝ) ≤ 3 / 4 + k * (1 / 100 / 4) * u.x := by nlinarith
  have hfar : ∀ y : ℝ, ¬ (Real.sqrt ((3 / 4 + k * (1 / 100 / 4) * u.x - 0) *
      (3 / 4 + k * (1 / 100 / 4) * u.x - 0) + y * y) < 3 / 10) := by
    intro y
    rw [Real.sqrt_lt' (by norm_num)]
    nlinarith [mul_self_nonneg y]
  simp only [insideAny, sourceObstacles, obstacle.insideObstacle, circle.insideObstacle, sample,
    vec2.sub, vec2.norm, List.any_cons, List.any_nil, Bool.or_false, hfar, decide_False,
    Bool.or_self]

/-- The scan of `strandedState` among the obstacles of the source is empty. -/
theorem scan_strandedState (g : vec2 ℝ) :
    scan (sourceConfig Real.sqrt Real.cos Real.sin sourceObstacles g) strandedState = [] := by
  unfold scan circleCast
  simp only [sourceConfig, strandedState]
  rw [raycast_far_from_sourceObstacles ⟨1, 0⟩ (by norm_num)]
  exact circleCastLoop_all_miss _ _ _ _ _ _ _ _
    (fun angle => raycast_far_from_sourceObstacles ⟨Real.cos angle, Real.sin angle⟩
      (Real.neg_one_le_cos angle)) _ _ _ _

/-- Witness of C7 (amended): the tunables and obstacles of the source, the robot
at `(3/4, 0)` following a border, out of sight of both circles. -/
theorem tick_no_candidate_steps_to_old_point_witness :
    ((tick (sourceConfig Real.sqrt Real.cos Real.sin sourceObstacles ⟨0, 0⟩)
      strandedState).robotCenter.sub (strandedState : RobotState ℝ).robotCenter).norm Real.sqrt =
      1 / 100 :=
  (tick_no_candidate_steps_to_old_point
    (sourceConfig Real.sqrt Real.cos Real.sin sourceObstacles ⟨0, 0⟩) strandedState rfl
    (by norm_num [sourceConfig, strandedState])
    (by simp [lineOfSightClear, strandedState])
    (by rw [scan_strandedState]; simp)
    (by
      intro h
      have := congrArg vec2.y h
      norm_num [strandedState] at this)
    (by norm_num [sourceConfig])).2.2

/-- Counterexample to C7 as stated, twice.  (a) The tunables and obstacles of the
source, the robot at `(3/4, 0)` following a border towards `(39/50, 1/25)`: the
tick takes the boundary-scan branch, `circleCast` returns the empty sequence,
and `robotCenter` moves from `(3/4, 0)` to `(189/250, 1/125)`.  (b) The
initial state at `(0, 1)` among the obstacles `courtyard`: the ray to the goal
is blocked, `circleCast` returns the empty sequence, and `robotCenter` moves
from `(0, 1)` to `(0, 101/100)`. -/
theorem tick_empty_scan_moves_robot :
    ¬ ((strandedState : RobotState ℝ).distToGoal ≤
      (sourceConfig Real.sqrt Real.cos Real.sin sourceObstacles ⟨0, 0⟩).robotSpeed) ∧
    lineOfSightClear (sourceConfig Real.sqrt Real.cos Real.sin sourceObstacles ⟨0, 0⟩)
      strandedState = false ∧
    scan (sourceConfig Real.sqrt Real.cos Real.sin sourceObstacles ⟨0, 0⟩) strandedState = [] ∧
    (strandedState : RobotState ℝ).robotCenter = ⟨3 / 4, 0⟩ ∧
    (tick (sourceConfig Real.sqrt Real.cos Real.sin sourceObstacles ⟨0, 0⟩)
      strandedState).robotCenter = ⟨189 / 250, 1 / 125⟩ ∧
    lineOfSightClear (sourceConfig Real.sqrt Real.cos Real.sin courtyard ⟨0, 0⟩)
      (initialState Real.sqrt ⟨0, 1⟩ ⟨0, -1⟩ ⟨0, 0⟩ ⟨0, 2000000001⟩ ⟨0, 0⟩) = false ∧
    scan (sourceConfig Real.sqrt Real.cos Real.sin courtyard ⟨0, 0⟩)
      (initialState Real.sqrt ⟨0, 1⟩ ⟨0, -1⟩ ⟨0, 0⟩ ⟨0, 2000000001⟩ ⟨0, 0⟩) = [] ∧
    (tick (sourceConfig Real.sqrt Real.cos Real.sin courtyard ⟨0, 0⟩)
      (initialState Real.sqrt ⟨0, 1⟩ ⟨0, -1⟩ ⟨0, 0⟩ ⟨0, 2000000001⟩ ⟨0, 0⟩)).robotCenter =
      ⟨0, 101 / 100⟩ := by
  have hfar : ¬ ((strandedState : RobotState ℝ).distToGoal ≤
      (sourceConfig Real.sqrt Real.cos Real.sin sourceObstacles ⟨0, 0⟩).robotSpeed) := by
    norm_num [sourceConfig, strandedState]
  have hblocked : lineOfSightClear
      (sourceConfig Real.sqrt Real.cos Real.sin sourceObstacles ⟨0, 0⟩) strandedState = false := by
    simp [lineOfSightClear, strandedState]
  refine ⟨hfar, hblocked, scan_strandedState _, rfl, ?_, ?_, scan_courtyard _ _ rfl, ?_⟩
  · rw [(tick_no_candidate _ _ hfar hblocked (by rw [scan_strandedState]; simp)).2]
    have hroot : Real.sqrt ((39 / 50 - 3 / 4) * (39 / 50 - 3 / 4) +
        (1 / 25 - 0) * (1 / 25 - 0)) = 1 / 20 := sqrt_of_mul_self (by norm_num) (by norm_num)
    simp only [sourceConfig, strandedState, normalize, vec2.sub, vec2.norm, vec2.add,
      vec2.scale, hroot]
    norm_num
  · simp only [lineOfSightClear, initialState, sourceConfig, sub_vertical, normalize_vertical]
    rw [raycast_courtyard _ (by norm_num [abs_of_pos])]
    rfl
  · simp only [tick, switchToDirect_robotCenter, switchToBoundary_robotCenter,
      remeasure_robotCenter, move_courtyard_start]

/-! ### The first tick inside `courtyard` -/

/-- C10 (code defect: `pointToFollow` is read at lines 669-683 without ever
having been assigned when the first scan yields no candidate): the tunables
of the source, the obstacle list `courtyard`, the robot in its initial state
at `(0, 1)` (outside every obstacle) with the uninitialised `pointToFollow`
holding `(0, 2000000001)`.  The ray to the goal is blocked and the scan is
empty, so the robot steps towards that value, away from the goal: the
tick executes the switch to boundary following with
`dfollowed = 2000000002`, then finds `dreach = 999999999 < dfollowed` true and
switches back, ending in direct mode. -/
theorem tick_switches_twice_on_uninitialised_point :
    insideAny Real.sqrt courtyard (⟨0, 1⟩ : vec2 ℝ) = false ∧
    (initialState Real.sqrt ⟨0, 1⟩ ⟨0, -1⟩ ⟨0, 0⟩ ⟨0, 2000000001⟩ ⟨0, 0⟩).followingBorder = false ∧
    startsFollowing (remeasure (sourceConfig Real.sqrt Real.cos Real.sin courtyard ⟨0, 0⟩)
      (move (sourceConfig Real.sqrt Real.cos Real.sin courtyard ⟨0, 0⟩)
        (initialState Real.sqrt ⟨0, 1⟩ ⟨0, -1⟩ ⟨0, 0⟩ ⟨0, 2000000001⟩ ⟨0, 0⟩))) = true ∧
    leavesBoundary (switchToBoundary (sourceConfig Real.sqrt Real.cos Real.sin courtyard ⟨0, 0⟩)
      (remeasure (sourceConfig Real.sqrt Real.cos Real.sin courtyard ⟨0, 0⟩)
        (move (sourceConfig Real.sqrt Real.cos Real.sin courtyard ⟨0, 0⟩)
          (initialState Real.sqrt ⟨0, 1⟩ ⟨0, -1⟩ ⟨0, 0⟩ ⟨0, 2000000001⟩ ⟨0, 0⟩)))) = true ∧
    (tick (sourceConfig Real.sqrt Real.cos Real.sin courtyard ⟨0, 0⟩)
      (initialState Real.sqrt ⟨0, 1⟩ ⟨0, -1⟩ ⟨0, 0⟩ ⟨0, 2000000001⟩ ⟨0, 0⟩)).followingBorder =
      false := by
  have hout : insideAny Real.sqrt courtyard (⟨0, 1⟩ : vec2 ℝ) = false := by
    simp only [insideAny, courtyard, obstacle.insideObstacle, circle.insideObstacle,
      vec2.sub, vec2.norm, List.any_cons, List.any_nil, Bool.or_false, Bool.or_eq_false_iff,
      decide_eq_false_iff_not, Real.sqrt_lt' (by norm_num : (0 : ℝ) < 1 / 8)]
    norm_num
  have hmove := move_courtyard_start
  have hstart : startsFollowing
      (remeasure (sourceConfig Real.sqrt Real.cos Real.sin courtyard ⟨0, 0⟩)
        (move (sourceConfig Real.sqrt Real.cos Real.sin courtyard ⟨0, 0⟩)
          (initialState Real.sqrt ⟨0, 1⟩ ⟨0, -1⟩ ⟨0, 0⟩ ⟨0, 2000000001⟩ ⟨0, 0⟩))) = true := by
    rw [hmove]
    simp only [startsFollowing, remeasure, sourceConfig, sub_vertical, norm_vertical]
    norm_num [abs_of_pos]
  have hleave : leavesBoundary
      (switchToBoundary (sourceConfig Real.sqrt Real.cos Real.sin courtyard ⟨0, 0⟩)
        (remeasure (sourceConfig Real.sqrt Real.cos Real.sin courtyard ⟨0, 0⟩)
          (move (sourceConfig Real.sqrt Real.cos Real.sin courtyard ⟨0, 0⟩)
            (initialState Real.sqrt ⟨0, 1⟩ ⟨0, -1⟩ ⟨0, 0⟩ ⟨0, 2000000001⟩ ⟨0, 0⟩)))) = true := by
    unfold switchToBoundary
    rw [if_pos hstart, hmove]
    simp only [leavesBoundary, remeasure, sourceConfig, sub_vertical, norm_vertical]
    norm_num [abs_of_pos]
  refine ⟨hout, rfl, hstart, hleave, ?_⟩
  unfold tick switchToDirect
  rw [if_pos hleave]

/-! ### Direct-mode ticks with a free line of sight -/

/-- A tick that is not a goal snap and has a free line of sight is the direct
move: `robotCenter` advances by `goalDirection * robotSpeed` and
`goalDirection` is left as it was (lines 641-649 do not assign it). -/
theorem tick_direct {K : Type} [LinearOrderedField K] [FloorRing K]
    (c : Config K) (s : RobotState K) (hfar : ¬ s.distToGoal ≤ c.robotSpeed)
    (hclear : lineOfSightClear c s = true) :
    (tick c s).robotCenter = s.robotCenter.add (s.goalDirection.scale c.robotSpeed) ∧
    (tick c s).goalDirection = s.goalDirection := by
  have hmove : move c s = directMove c s := by
    unfold move
    rw [if_neg hfar, if_pos hclear]
  constructor
  · rw [tick, switchToDirect_robotCenter, switchToBoundary_robotCenter, remeasure_robotCenter,
      hmove]
    rfl
  · rw [tick, switchToDirect_goalDirection, switchToBoundary_goalDirection,
      remeasure_goalDirection, hmove]
    rfl

/-- Scaling a vector by a positive factor does not change its normalisation. -/
theorem normalize_pos_scale (v : vec2 ℝ) (t : ℝ) (ht : 0 < t) :
    normalize Real.sqrt (v.scale t) = normalize Real.sqrt v := by
  have hn : Real.sqrt (v.x * t * (v.x * t) + v.y * t * (v.y * t)) =
      Real.sqrt (v.x * v.x + v.y * v.y) * t := by
    have e : v.x * t * (v.x * t) + v.y * t * (v.y * t) = (v.x * v.x + v.y * v.y) * (t * t) := by
      ring
    rw [e, Real.sqrt_mul (by nlinarith [mul_self_nonneg v.x, mul_self_nonneg v.y]),
      Real.sqrt_mul_self (le_of_lt ht)]
  simp only [normalize, vec2.scale, vec2.norm, hn]
  have ht0 : t ≠ 0 := ne_of_gt ht
  congr 1
  · exact mul_div_mul_right _ _ ht0
  · exact mul_div_mul_right _ _ ht0

/-- After a step of length `speed` along `normalize v`, what is left of `v` is
`v` scaled by `1 - speed / |v|`. -/
theorem remaining_after_step (rc goal : vec2 ℝ) (speed : ℝ) :
    goal.sub (rc.add ((normalize Real.sqrt (goal.sub rc)).scale speed)) =
      (goal.sub rc).scale (1 - speed / (goal.sub rc).norm Real.sqrt) := by
  simp only [normalize, vec2.sub, vec2.add, vec2.scale]
  ext
  · simp only
    ring
  · simp only
    ring

/-- C11: in every state in which `goalDirection` is the unit vector from
`robotCenter` towards `goalCenter` and
`distToGoal = |goalCenter - robotCenter| > robotSpeed ≥ 0`, a direct-mode tick
with a free line of sight moves `robotCenter` by `goalDirection * robotSpeed`,
leaves `goalDirection` as it was, and that value equals
`normalize (goalCenter - robotCenter)` computed at the new position (exact
real arithmetic); `distToGoal` is again the distance from the new position. -/
theorem tick_direct_keeps_goalDirection (c : Config ℝ) (s : RobotState ℝ)
    (hsqrt : c.sqrt = Real.sqrt)
    (hgd : s.goalDirection = normalize c.sqrt (c.goalCenter.sub s.robotCenter))
    (hd : s.distToGoal = (c.goalCenter.sub s.robotCenter).norm c.sqrt)
    (hfar : c.robotSpeed < s.distToGoal) (hspeed : 0 ≤ c.robotSpeed)
    (hclear : lineOfSightClear c s = true) :
    (tick c s).robotCenter = s.robotCenter.add (s.goalDirection.scale c.robotSpeed) ∧
    (tick c s).goalDirection = s.goalDirection ∧
    (tick c s).goalDirection = normalize c.sqrt (c.goalCenter.sub (tick c s).robotCenter) ∧
    (tick c s).distToGoal = (c.goalCenter.sub (tick c s).robotCenter).norm c.sqrt := by
  obtain ⟨h1, h2⟩ := tick_direct c s (not_le.2 hfar) hclear
  refine ⟨h1, h2, ?_, ?_⟩
  · rw [h1, h2, hgd, hsqrt]
    rw [hd, hsqrt] at hfar
    have hpos : 0 < (c.goalCenter.sub s.robotCenter).norm Real.sqrt :=
      lt_of_le_of_lt hspeed hfar
    have ht : 0 < 1 - c.robotSpeed / (c.goalCenter.sub s.robotCenter).norm Real.sqrt := by
      rw [sub_pos, div_lt_one hpos]
      exact hfar
    rw [remaining_after_step s.robotCenter c.goalCenter c.robotSpeed,
      normalize_pos_scale _ _ ht]
  · rw [tick, switchToDirect_robotCenter, switchToBoundary_robotCenter, remeasure_robotCenter,
      switchToDirect_distToGoal, switchToBoundary_distToGoal]
    rfl

/-- In the initial state of the program of the source the line of sight is free. -/
theorem lineOfSightClear_source_start (g ld ptf fb : vec2 ℝ) :
    lineOfSightClear (sourceConfig Real.sqrt Real.cos Real.sin sourceObstacles g)
      (initialState Real.sqrt ⟨0, 1⟩ ⟨0, -1⟩ ld ptf fb) = true := by
  have hgd : normalize Real.sqrt ((⟨0, -1⟩ : vec2 ℝ).sub ⟨0, 1⟩) = ⟨0, -1⟩ := by
    rw [sub_vertical, normalize_vertical]
    norm_num [abs_of_neg]
  simp only [lineOfSightClear, initialState, sourceConfig, hgd,
    raycast_source_down_free 1 (by norm_num)]
  rfl

/-- Witness of C11: the first tick of the program of the source. -/
theorem tick_direct_keeps_goalDirection_witness :
    (tick (sourceConfig Real.sqrt Real.cos Real.sin sourceObstacles ⟨0, 0⟩)
        (initialState Real.sqrt ⟨0, 1⟩ ⟨0, -1⟩ ⟨0, 0⟩ ⟨0, 0⟩ ⟨0, 0⟩)).goalDirection =
      normalize Real.sqrt ((⟨0, -1⟩ : vec2 ℝ).sub
        (tick (sourceConfig Real.sqrt Real.cos Real.sin sourceObstacles ⟨0, 0⟩)
          (initialState Real.sqrt ⟨0, 1⟩ ⟨0, -1⟩ ⟨0, 0⟩ ⟨0, 0⟩ ⟨0, 0⟩)).robotCenter) :=
  (tick_direct_keeps_goalDirection
    (sourceConfig Real.sqrt Real.cos Real.sin sourceObstacles ⟨0, 0⟩)
    (initialState Real.sqrt ⟨0, 1⟩ ⟨0, -1⟩ ⟨0, 0⟩ ⟨0, 0⟩ ⟨0, 0⟩) rfl rfl rfl
    (by
      simp only [initialState, sourceConfig, sub_vertical, norm_vertical]
      norm_num [abs_of_neg])
    (by norm_num [sourceConfig])
    (lineOfSightClear_source_start _ _ _ _)).2.2.1

/-- C12: with `raySpeed = robotSpeed / 4` and
`robotVisionRadius ≥ robotSpeed > 0`, the ray takes at least 4 samples, and in
every direct-mode tick whose ray along `goalDirection` reports no hit the new
`robotCenter`, `robotCenter + goalDirection * robotSpeed`, is the 4th sample
of that ray and lies inside no obstacle of `obstacleList` (exact arithmetic). -/
theorem tick_direct_lands_on_fourth_sample {K : Type} [LinearOrderedField K] [FloorRing K]
    (c : Config K) (s : RobotState K) (hray : c.raySpeed = c.robotSpeed / 4)
    (hspeed : 0 < c.robotSpeed) (hvis : c.robotSpeed ≤ c.robotVisionRadius)
    (hfar : ¬ s.distToGoal ≤ c.robotSpeed) (hclear : lineOfSightClear c s = true) :
    4 ≤ ⌈c.robotVisionRadius / c.raySpeed⌉₊ ∧
    (tick c s).robotCenter = s.robotCenter.add (s.goalDirection.scale c.robotSpeed) ∧
    (tick c s).robotCenter = sample s.robotCenter s.goalDirection c.raySpeed 4 ∧
    insideAny c.sqrt c.obstacleList (tick c s).robotCenter = false := by
  have hrs : 0 < c.raySpeed := by
    rw [hray]
    exact div_pos hspeed (by norm_num)
  have hN : 4 ≤ ⌈c.robotVisionRadius / c.raySpeed⌉₊ := by
    have h3 : 3 < ⌈c.robotVisionRadius / c.raySpeed⌉₊ := by
      rw [Nat.lt_ceil, lt_div_iff₀ hrs, hray]
      push_cast
      linarith
    omega
  have hmiss : (raycast c.sqrt c.raySpeed s.robotCenter s.goalDirection c.robotVisionRadius
      c.obstacleList).1 = false := by
    unfold lineOfSightClear at hclear
    simp only [Bool.and_eq_true, Bool.not_eq_true'] at hclear
    exact hclear.2
  have hpos := (tick_direct c s hfar hclear).1
  have hsample : s.robotCenter.add (s.goalDirection.scale c.robotSpeed) =
      sample s.robotCenter s.goalDirection c.raySpeed 4 := by
    simp only [sample, vec2.add, vec2.scale, hray]
    ext
    · simp only
      push_cast
      ring
    · simp only
      push_cast
      ring
  refine ⟨hN, hpos, hpos.trans hsample, ?_⟩
  rw [hpos, hsample]
  cases hin : insideAny c.sqrt c.obstacleList (sample s.robotCenter s.goalDirection c.raySpeed 4)
    with
  | false => rfl
  | true =>
    obtain ⟨j, _, _, _, hrc⟩ := raycast_hit_of_inside c.sqrt c.raySpeed s.robotCenter
      s.goalDirection c.robotVisionRadius c.obstacleList 4 (by omega) hN hin
    rw [hrc] at hmiss
    exact absurd hmiss (by simp)

/-- Witness of C12: the first tick of the program of the source. -/
theorem tick_direct_lands_on_fourth_sample_witness :
    insideAny Real.sqrt sourceObstacles
      (tick (sourceConfig Real.sqrt Real.cos Real.sin sourceObstacles ⟨0, 0⟩)
        (initialState Real.sqrt ⟨0, 1⟩ ⟨0, -1⟩ ⟨0, 0⟩ ⟨0, 0⟩ ⟨0, 0⟩)).robotCenter = false :=
  (tick_direct_lands_on_fourth_sample
    (sourceConfig Real.sqrt Real.cos Real.sin sourceObstacles ⟨0, 0⟩)
    (initialState Real.sqrt ⟨0, 1⟩ ⟨0, -1⟩ ⟨0, 0⟩ ⟨0, 0⟩ ⟨0, 0⟩) rfl
    (by norm_num [sourceConfig]) (by norm_num [sourceConfig])
    (by
      simp only [initialState, sourceConfig, sub_vertical, norm_vertical]
      norm_num [abs_of_neg])
    (lineOfSightClear_source_start _ _ _ _)).2.2.2

end TickClaims

end TangentBug
